import Mathlib

/-!
Verification of the fossil-ai jellyfish core against its specification.

The C sources are embedded shallowly:

* bytes are natural numbers below 256, byte sequences are lists;
* 32-bit and 64-bit machine integers are naturals reduced modulo 2^32 or
  2^64 at the operations where the C code can wrap;
* float values appear in two guises, depending on what a claim needs:
  as raw 32-bit patterns (for copying and serialization, where the C code
  never does arithmetic on them) and as exact rational numbers (for the
  attention arithmetic, evaluated at inputs where binary32 arithmetic is
  exact); the C library function sqrtf is passed in as an explicit
  function parameter;
* fallible C functions that return NULL or false become Option-valued
  functions.

The repository carries several variants of the jellyfish core.  The
namespace Blend embeds the linear-plus-attention variant (the one whose
model struct has input_size, output_size and an internal_state weight
array); the namespace Knn embeds the weighted k-nearest-neighbour
variant (the one whose model struct has memory_count and a trained
flag); the namespace Core embeds the opaque core/model/audit variant
with the FJMODEL persistence format and the training ledger.
-/

set_option maxRecDepth 100000

namespace FossilAI

/-! ## SHA-256 (from compute_sha256 and its helpers in jellyfish.c) -/

/-- Two to the thirty-second power, the modulus of uint32_t arithmetic. -/
def U32 : Nat := 4294967296

/-- ROTRIGHT(a,b) from jellyfish.c: 32-bit right rotation. -/
def rotright (a b : Nat) : Nat := ((a >>> b) ||| (a <<< (32 - b))) % U32

/-- Bitwise complement on a 32-bit word. -/
def notU32 (x : Nat) : Nat := x ^^^ 4294967295

/-- CH(x,y,z) from jellyfish.c. -/
def chFn (x y z : Nat) : Nat := (x &&& y) ^^^ (notU32 x &&& z)

/-- MAJ(x,y,z) from jellyfish.c. -/
def majFn (x y z : Nat) : Nat := (x &&& y) ^^^ (x &&& z) ^^^ (y &&& z)

/-- EP0(x) from jellyfish.c. -/
def ep0 (x : Nat) : Nat := rotright x 2 ^^^ rotright x 13 ^^^ rotright x 22

/-- EP1(x) from jellyfish.c. -/
def ep1 (x : Nat) : Nat := rotright x 6 ^^^ rotright x 11 ^^^ rotright x 25

/-- SIG0(x) from jellyfish.c. -/
def sig0 (x : Nat) : Nat := rotright x 7 ^^^ rotright x 18 ^^^ (x >>> 3)

/-- SIG1(x) from jellyfish.c. -/
def sig1 (x : Nat) : Nat := rotright x 17 ^^^ rotright x 19 ^^^ (x >>> 10)

/-- The round-constant table k[64] from jellyfish.c. -/
def kTable : List Nat :=
  [1116352408,1899447441,3049323471,3921009573,961987163,
   1508970993,2453635748,2870763221,3624381080,310598401,
   607225278,1426881987,1925078388,2162078206,2614888103,
   3248222580,3835390401,4022224774,264347078,604807628,
   770255983,1249150122,1555081692,1996064986,2554220882,
   2821834349,2952996808,3210313671,3336571891,3584528711,
   113926993,338241895,666307205,773529912,1294757372,
   1396182291,1695183700,1986661051,2177026350,2456956037,
   2730485921,2820302411,3259730800,3345764771,3516065817,
   3600352804,4094571909,275423344,430227734,506948616,
   659060556,883997877,958139571,1322822218,1537002063,
   1747873779,1955562222,2024104815,2227730452,2361852424,
   2428436474,2756734187,3204031479,3329325298]

/-- The first loop of sha256_transform: pack groups of four data bytes into
big-endian 32-bit words m[0..15]. -/
def words16 : List Nat → List Nat
  | a :: b :: c :: d :: rest => ((a <<< 24) ||| (b <<< 16) ||| (c <<< 8) ||| d) :: words16 rest
  | _ => []

/-- The second loop of sha256_transform: extend the 16-word schedule by n
further words, m[i] = SIG1(m[i-2]) + m[i-7] + SIG0(m[i-15]) + m[i-16]
in uint32_t arithmetic. -/
def extendSchedule : List Nat → Nat → List Nat
  | m, 0 => m
  | m, n + 1 =>
      let len := m.length
      let w := (sig1 (m.getD (len - 2) 0) + m.getD (len - 7) 0 +
                sig0 (m.getD (len - 15) 0) + m.getD (len - 16) 0) % U32
      extendSchedule (m ++ [w]) n

/-- One iteration of the 64-round compression loop of sha256_transform,
on the working variables [a,b,c,d,e,f,g,h]. -/
def sha256Round (st : List Nat) (km : Nat × Nat) : List Nat :=
  match st with
  | [a, b, c, d, e, f, g, h] =>
      let t1 := (h + ep1 e + chFn e f g + km.1 + km.2) % U32
      let t2 := (ep0 a + majFn a b c) % U32
      [(t1 + t2) % U32, a, b, c, (d + t1) % U32, e, f, g]
  | other => other

/-- sha256_transform from jellyfish.c: compress one 64-byte block into the
running state of eight 32-bit words. -/
def sha256_transform (state : List Nat) (block : List Nat) : List Nat :=
  let m := extendSchedule (words16 block) 48
  let st := (kTable.zip m).foldl sha256Round state
  List.zipWith (fun s t => (s + t) % U32) state st

/-- The initial state set by sha256_init. -/
def sha256InitState : List Nat :=
  [1779033703, 3144134277, 1013904242, 2773480762,
   1359893119, 2600822924, 528734635, 1541459225]

/-- Big-endian byte serialization of a 32-bit word, as produced by the
final output loop of sha256_final. -/
def be32 (x : Nat) : List Nat :=
  [(x >>> 24) &&& 255, (x >>> 16) &&& 255, (x >>> 8) &&& 255, x &&& 255]

/-- Big-endian byte serialization of a 64-bit value, as produced by the
bitlen store in sha256_final (data[56] holds the top byte). -/
def be64 (x : Nat) : List Nat :=
  [(x >>> 56) &&& 255, (x >>> 48) &&& 255, (x >>> 40) &&& 255, (x >>> 32) &&& 255,
   (x >>> 24) &&& 255, (x >>> 16) &&& 255, (x >>> 8) &&& 255, x &&& 255]

/-- The padding produced by sha256_final: a 0x80 byte, zeros up to 56 mod
64, then the bit length as a big-endian 64-bit value. -/
def sha256Pad (msg : List Nat) : List Nat :=
  msg ++ 0x80 :: List.replicate ((119 - msg.length % 64) % 64) 0 ++
    be64 ((msg.length * 8) % 18446744073709551616)

/-- Split a byte list into consecutive 64-byte blocks, n blocks in total;
sha256_update together with the final transform consume exactly the
blocks of the padded message. -/
def toBlocks : Nat → List Nat → List (List Nat)
  | 0, _ => []
  | n + 1, l => l.take 64 :: toBlocks n (l.drop 64)

/-- The digest computed by compute_sha256 in jellyfish.c: initialize the
state, absorb every 64-byte block of the padded message, and emit the
state big-endian. -/
def sha256Bytes (msg : List Nat) : List Nat :=
  let padded := sha256Pad msg
  let blocks := toBlocks (padded.length / 64) padded
  (blocks.foldl sha256_transform sha256InitState).flatMap be32

/-! ## Hash values and the static result buffer (claim C7)

In jellyfish.c, compute_sha256 writes the digest into a function-local
array declared with the C keyword for per-process storage duration, and
the returned struct's bytes field is a pointer to that one array.  We
model that array as explicit state threaded through computations, and a
returned hash struct as a handle whose digest bytes are read out of the
current state. -/

/-- The per-process digest buffer of compute_sha256 in jellyfish.c. -/
structure HashStaticState where
  buf : List Nat
deriving DecidableEq

/-- The value compute_sha256 returns: the algorithm label, the length
field, and a pointer to the shared buffer (the pointer itself carries no
data, so it is represented by Unit). -/
structure JellyfishHash where
  algorithm : String
  bytesPtr : Unit
  length : Nat
deriving DecidableEq

/-- One call of compute_sha256: overwrite the shared buffer with the
digest of the message and hand back a hash struct pointing at it. -/
def compute_sha256_call (_st : HashStaticState) (msg : List Nat) :
    HashStaticState × JellyfishHash :=
  (⟨sha256Bytes msg⟩, ⟨"sha256", (), 32⟩)

/-- Reading the digest bytes through a hash struct dereferences its
pointer into the shared buffer, so it yields the buffer's current
contents. -/
def readHashBytes (st : HashStaticState) (_h : JellyfishHash) : List Nat :=
  st.buf

/-! ## The training ledger (claim C2)

From the core/audit variant of the jellyfish sources: the functions
fossil_ai_jellyfish_train, _retrain and _untrain append one record to the
log file of the (core, model) pair.  Each record is the op byte, the
dataset-id length as a host-endian uint32, the dataset-id bytes, and a
32-byte entry hash computed as compute_sha256(dataset_id, ds_len). -/

/-- Little-endian serialization of a uint32 value (x86 host order). -/
def le32 (x : Nat) : List Nat :=
  [x &&& 255, (x >>> 8) &&& 255, (x >>> 16) &&& 255, (x >>> 24) &&& 255]

/-- The bytes fossil_ai_jellyfish_train appends to the training log for a
dataset id: op byte 1, the id length, the id, then the entry hash, which
the code computes as the SHA-256 of the dataset-id bytes alone. -/
def fossil_ai_jellyfish_train_append (ds : List Nat) : List Nat :=
  [1] ++ le32 (ds.length % U32) ++ ds ++ sha256Bytes ds

/-- The bytes fossil_ai_jellyfish_retrain appends: as train, op byte 2. -/
def fossil_ai_jellyfish_retrain_append (ds : List Nat) : List Nat :=
  [2] ++ le32 (ds.length % U32) ++ ds ++ sha256Bytes ds

/-- The bytes fossil_ai_jellyfish_untrain appends: as train, op byte 3. -/
def fossil_ai_jellyfish_untrain_append (ds : List Nat) : List Nat :=
  [3] ++ le32 (ds.length % U32) ++ ds ++ sha256Bytes ds

/-- The trailing 32 bytes of an appended record: the entry hash stored
with it. -/
def appendedEntryHash (record : List Nat) : List Nat :=
  record.drop (record.length - 32)

/-- The entry hash the claim describes, modelled from the spec's words:
SHA256(prev_hash concatenated with the op byte and the dataset id). -/
def specChainEntryHash (prev : List Nat) (opByte : Nat) (ds : List Nat) : List Nat :=
  sha256Bytes (prev ++ [opByte] ++ ds)

/-! ## Shared byte-stream parsing helpers

These model sequential fread calls on a file whose contents are a byte
list; a short read makes the surrounding loader return NULL, matching
the checked fread calls in the load routines. -/

/-- Read n bytes from the stream; none on a short read. -/
def takeN (n : Nat) (l : List Nat) : Option (List Nat × List Nat) :=
  if n ≤ l.length then some (l.take n, l.drop n) else none

/-- Little-endian value of a byte list (first byte least significant). -/
def decodeLE (l : List Nat) : Nat :=
  l.foldr (fun b acc => b + 256 * acc) 0

/-- Little-endian serialization of a uint64 value (x86 host order). -/
def le64b (x : Nat) : List Nat :=
  [x &&& 255, (x >>> 8) &&& 255, (x >>> 16) &&& 255, (x >>> 24) &&& 255,
   (x >>> 32) &&& 255, (x >>> 40) &&& 255, (x >>> 48) &&& 255, (x >>> 56) &&& 255]

/-- The two's-complement int64 whose unsigned 64-bit representation is v. -/
def decodeI64 (v : Nat) : Int :=
  if v < 9223372036854775808 then (v : Int) else (v : Int) - 18446744073709551616

/-- The little-endian two's-complement bytes of an int64 timestamp. -/
def i64bytes (t : Int) : List Nat :=
  le64b (t % 18446744073709551616).toNat

/-- fread of a uint32 field. -/
def readU32 (l : List Nat) : Option (Nat × List Nat) :=
  (takeN 4 l).map (fun p => (decodeLE p.1, p.2))

/-- fread of a uint64 or size_t field. -/
def readU64 (l : List Nat) : Option (Nat × List Nat) :=
  (takeN 8 l).map (fun p => (decodeLE p.1, p.2))

/-- fread of an int64 field. -/
def readI64 (l : List Nat) : Option (Int × List Nat) :=
  (takeN 8 l).map (fun p => (decodeI64 (decodeLE p.1), p.2))

/-- Decode a byte list as consecutive little-endian 32-bit values (the
in-memory float bit patterns read back by fread). -/
def decode32List : List Nat → List Nat
  | a :: b :: c :: d :: rest => decodeLE [a, b, c, d] :: decode32List rest
  | _ => []

namespace Blend

/-! ## The linear-plus-attention variant (claims C1, C4, C6, C8, C10)

Model struct from the first jellyfish header: name[128], uint64 version,
size_t input_size and output_size, an internal_state weight array of
input_size times output_size floats, a fixed array of 1024 memory slots
(embedding and output of 64 floats each plus an int64 timestamp), and
memory_len.  Floats are represented by their 32-bit patterns, since this
variant only ever copies and serializes them in the claims at issue. -/

/-- One memory slot: fossil_ai_jellyfish_memory_t of the first header. -/
structure JFMemory where
  embedding : List Nat
  output : List Nat
  timestamp : Int
deriving DecidableEq

/-- fossil_ai_jellyfish_model_t of the first header. -/
structure JFModel where
  name : List Nat
  version : Nat
  input_size : Nat
  output_size : Nat
  weights : List Nat
  memory : List JFMemory
  memory_len : Nat
deriving DecidableEq

/-- A zero-initialized memory slot, as left by calloc. -/
def zeroMemory : JFMemory :=
  ⟨List.replicate 64 0, List.replicate 64 0, 0⟩

/-- fossil_ai_jellyfish_copy: copy the first len elements of src over the
start of dst, leaving the rest of dst unchanged.  (Reading src beyond
its end is undefined in C; the embedding leaves dst unchanged there, and
every theorem keeps len within both arrays.) -/
def fossil_ai_jellyfish_copy : List Nat → List Nat → Nat → List Nat
  | dst, _, 0 => dst
  | [], _, _ + 1 => []
  | _ :: dst, s :: src, n + 1 => s :: fossil_ai_jellyfish_copy dst src n
  | d :: dst, [], n + 1 => d :: fossil_ai_jellyfish_copy dst [] n

/-- strncpy of at most copyMax bytes of src into a zero-initialized
buffer of the given total size. -/
def strncpyFixed (src : List Nat) (total copyMax : Nat) : List Nat :=
  src.take copyMax ++ List.replicate (total - (src.take copyMax).length) 0

/-- fossil_ai_jellyfish_create_model of this variant: calloc the struct,
copy the name, set version 1 and the sizes, calloc the weight array. -/
def fossil_ai_jellyfish_create_model (name : List Nat) (input_size output_size : Nat) :
    JFModel :=
  ⟨strncpyFixed name 128 127, 1, input_size, output_size,
   List.replicate (input_size * output_size) 0,
   List.replicate 1024 zeroMemory, 0⟩

/-- fossil_ai_jellyfish_add_memory of this variant (the non-NULL path,
which always returns true): clamp the copy length to the embedding size
and the model's output size, write slot memory_len mod 1024, stamp the
time, and grow memory_len while below capacity.  The now argument is
the value time(NULL) returned during the call. -/
def fossil_ai_jellyfish_add_memory (m : JFModel) (input output : List Nat)
    (embed_len : Nat) (now : Int) : JFModel :=
  let safe1 := if embed_len > 64 then 64 else embed_len
  let safe_len := if m.output_size < safe1 then m.output_size else safe1
  let idx := m.memory_len % 1024
  let slot := m.memory.getD idx zeroMemory
  let slot2 : JFMemory :=
    ⟨fossil_ai_jellyfish_copy slot.embedding input safe_len,
     fossil_ai_jellyfish_copy slot.output output safe_len, now⟩
  { m with
    memory := m.memory.set idx slot2,
    memory_len := if m.memory_len < 1024 then m.memory_len + 1 else m.memory_len }

/-- Insert n distinct one-component records into a model, record number
i carrying value i in its first embedding and output component and
timestamp i. -/
def insertRecs (m : JFModel) : Nat → JFModel
  | 0 => m
  | n + 1 => fossil_ai_jellyfish_add_memory (insertRecs m n) [n] [n] 1 n

/-- A small concrete model: one input, one output, name of one byte. -/
def modelA : JFModel := fossil_ai_jellyfish_create_model [0x6d] 1 1

/-- The in-memory bytes of one memory slot as fwrite emits them:
embedding floats, output floats, timestamp (no struct padding, since
520 bytes is already 8-byte aligned). -/
def serializeMemory (s : JFMemory) : List Nat :=
  s.embedding.flatMap le32 ++ s.output.flatMap le32 ++ i64bytes s.timestamp

/-- fossil_ai_jellyfish_save_model: magic, version 1, input_size,
output_size, the 128 name bytes, memory_len, then min(memory_len, 1024)
memory slots, then the weight floats.  No integrity hash is written. -/
def fossil_ai_jellyfish_save_model (m : JFModel) : List Nat :=
  le32 0x4A454C59 ++ le32 1 ++ le64b m.input_size ++ le64b m.output_size ++
    m.name ++ le64b m.memory_len ++
    (m.memory.take (min m.memory_len 1024)).flatMap serializeMemory ++
    m.weights.flatMap le32

/-- fossil_ai_jellyfish_load_model: validate magic and version, read the
sizes, name and memory_len, clamp memory_len to 1024, read that many
slots and then input_size times output_size weight floats; any short
read yields NULL.  The version field of the returned struct stays 0
from calloc, the memory slots beyond memory_len stay zeroed, and no
integrity check of any kind is performed. -/
def fossil_ai_jellyfish_load_model (bytes : List Nat) : Option JFModel := do
  let (magic, r1) ← readU32 bytes
  let (version, r2) ← readU32 r1
  if magic = 0x4A454C59 ∧ version = 1 then
    let (insz, r3) ← readU64 r2
    let (outsz, r4) ← readU64 r3
    let (nameB, r5) ← takeN 128 r4
    let (mlenRaw, r6) ← readU64 r5
    let memLen := min mlenRaw 1024
    let (mems, r7) ← parseMemories memLen r6
    let (wb, _) ← takeN (4 * (insz * outsz)) r7
    some ⟨nameB, 0, insz, outsz, decode32List wb,
          mems ++ List.replicate (1024 - memLen) zeroMemory, memLen⟩
  else none
where
  /-- fread of a run of memory slots; none on a short read. -/
  parseMemories : Nat → List Nat → Option (List JFMemory × List Nat)
    | 0, l => some ([], l)
    | n + 1, l => do
        let (eb, r1) ← takeN 256 l
        let (ob, r2) ← takeN 256 r1
        let (ts, r3) ← readI64 r2
        let (rest, r4) ← parseMemories n r3
        some (⟨decode32List eb, decode32List ob, ts⟩ :: rest, r4)

/-- The file bytes of modelA with one byte of its weight section flipped
from 0 to 255 (the weight floats start at offset 160, right after the
160-byte header, because modelA has no memory records). -/
def corruptedModelAFile : List Nat :=
  (fossil_ai_jellyfish_save_model modelA).set 160 255

/-- A memory slot as it sits in a well-formed in-memory model: 64-entry
embedding and output arrays of 32-bit float patterns and an int64
timestamp. -/
def wfSlot (s : JFMemory) : Prop :=
  s.embedding.length = 64 ∧ s.output.length = 64 ∧
    (∀ w ∈ s.embedding, w < U32) ∧ (∀ w ∈ s.output, w < U32) ∧
    -(9223372036854775808 : Int) ≤ s.timestamp ∧
    s.timestamp < 9223372036854775808

instance (s : JFMemory) : Decidable (wfSlot s) := by
  unfold wfSlot
  infer_instance

end Blend

namespace Core

/-! ## The core/audit variant (claim C1, amended part)

fossil_ai_jellyfish_load of the core/audit variant reads the FJMODEL
header, id and type strings, skips the placeholder data, reads the
stored 32-byte hash, recomputes SHA-256 over the whole file minus its
final 32 bytes, and destroys the model and returns NULL when the two
digests differ. -/

/-- The model handle of the core/audit variant: id and type strings. -/
structure CoreModel where
  id : List Nat
  model_type : List Nat
deriving DecidableEq

/-- The header-parsing phase of fossil_ai_jellyfish_load: magic string
FJMODEL, version 1, the id and type lengths and bytes, an 8-byte skip of
the placeholder data length, then the stored 32-byte hash.  (The C code
does not check its fread results here; a file too short for its declared
lengths reads into uninitialized memory, which the embedding renders as
NULL, and the fail-closed theorem only ever runs it on files long enough
to parse.) -/
def fossil_ai_jellyfish_load_parse (bytes : List Nat) :
    Option (CoreModel × List Nat) := do
  let (hdr, r1) ← takeN 7 bytes
  if hdr = [0x46, 0x4A, 0x4D, 0x4F, 0x44, 0x45, 0x4C] then
    let (version, r2) ← readU32 r1
    if version = 1 then
      let (idLen, r3) ← readU32 r2
      let (tyLen, r4) ← readU32 r3
      let (idb, r5) ← takeN idLen r4
      let (tyb, r6) ← takeN tyLen r5
      let (_, r7) ← takeN 8 r6
      let (stored, _) ← takeN 32 r7
      some (⟨idb, tyb⟩, stored)
    else none
  else none

/-- fossil_ai_jellyfish_load: parse, then compare the stored hash with
the digest recomputed over the file minus its final 32 bytes; on a
mismatch the model is destroyed and no model is returned. -/
def fossil_ai_jellyfish_load (bytes : List Nat) : Option CoreModel :=
  match fossil_ai_jellyfish_load_parse bytes with
  | none => none
  | some (m, stored) =>
      if stored = sha256Bytes (bytes.take (bytes.length - 32)) then some m else none

/-- A well-formed FJMODEL file (id a, type b, empty data) whose trailing
stored hash is 32 zero bytes and therefore wrong. -/
def badHashFile : List Nat :=
  [0x46, 0x4A, 0x4D, 0x4F, 0x44, 0x45, 0x4C] ++ le32 1 ++ le32 1 ++ le32 1 ++
    [0x61] ++ [0x62] ++ List.replicate 8 0 ++ List.replicate 32 0

end Core

namespace Knn

/-! ## The weighted k-nearest-neighbour variant (claims C5, C9)

From the jellyfish variant whose model struct carries memory_count and a
trained flag.  Floats are modelled as exact rational numbers; the claims
at issue concern the selection and weighting policy, which is decided by
comparisons and is exact at the inputs the witnesses use.  The C library
function sqrtf enters normalization only and is passed in as a function
parameter. -/

/-- fossil_ai_jellyfish_memory_t of the k-NN header: embedding and
output vectors, timestamp, and a 64-byte id. -/
structure KMemory where
  embedding : List ℚ
  output : List ℚ
  timestamp : Int
  id : List Nat
deriving DecidableEq

/-- fossil_ai_jellyfish_model_t of the k-NN header.  The memory list
holds the memory_count live records (the fixed array's tail of unused
zeroed slots carries no information and is not represented). -/
structure KModel where
  name : List Nat
  version : Nat
  memory : List KMemory
  trained : Bool
deriving DecidableEq

/-- A zero record, the calloc content of an unused slot. -/
def emptyKMemory : KMemory := ⟨[], [], 0, []⟩

/-- FLT_MAX as an exact rational: (2 - 2^-23) * 2^127. -/
def FLT_MAX_Q : ℚ := 340282346638528859811704183484516925440

/-- fossil_ai_jellyfish_create_model of the k-NN variant: calloc the
struct (trained false, no memory), copy at most 127 name bytes, set
version 1. -/
def fossil_ai_jellyfish_create_model (name : List Nat) : KModel :=
  ⟨Blend.strncpyFixed name 128 127, 1, [], false⟩

/-- fossil_ai_jellyfish_add_memory of the k-NN variant (non-NULL path):
reject when the store is full, otherwise append a record at index
memory_count and bump the count.  The id is stored through strncpy into
a zeroed 64-byte field. -/
def fossil_ai_jellyfish_add_memory (m : KModel) (embedding output : List ℚ)
    (id : List Nat) (timestamp : Int) : Option KModel :=
  if 1024 ≤ m.memory.length then none
  else some { m with
    memory := m.memory ++ [⟨embedding, output, timestamp, Blend.strncpyFixed id 64 63⟩] }

/-- The squared-magnitude accumulation loop shared by the normalization
helpers. -/
def sumsq (v : List ℚ) : ℚ := (v.map (fun x => x * x)).sum

/-- fossil_ai_jellyfish_normalize_embedding: test the squared magnitude,
then divide by its square root; a zero vector is left unchanged. -/
def fossil_ai_jellyfish_normalize_embedding (sqrtf : ℚ → ℚ) (vec : List ℚ) :
    List ℚ :=
  let mag := sumsq vec
  if 0 < mag then vec.map (fun x => x / sqrtf mag) else vec

/-- fossil_ai_jellyfish_precompute_norms: normalize every stored
embedding in place.  Note the source tests the square root of the
magnitude here, unlike normalize_embedding which tests the squared
magnitude before taking the root. -/
def fossil_ai_jellyfish_precompute_norms (sqrtf : ℚ → ℚ) (m : KModel) : KModel :=
  { m with memory := m.memory.map (fun s =>
      let mg := sqrtf (sumsq s.embedding)
      if 0 < mg then { s with embedding := s.embedding.map (fun x => x / mg) }
      else s) }

/-- fossil_ai_jellyfish_train_model: fail on an empty store leaving
trained false, otherwise normalize all embeddings and set trained. -/
def fossil_ai_jellyfish_train_model (sqrtf : ℚ → ℚ) (m : KModel) :
    KModel × Bool :=
  if m.memory.length = 0 then ({ m with trained := false }, false)
  else ({ fossil_ai_jellyfish_precompute_norms sqrtf m with trained := true }, true)

/-- The cosine-similarity dot product loop of predict. -/
def dotQ (a b : List ℚ) : ℚ := (List.zipWith (fun x y => x * y) a b).sum

/-- One step of predict's top-k insertion pass: find the first slot whose
score the new dot exceeds, shift the lower slots down dropping the last,
and insert the (score, index) pair there. -/
def insertBest (dot : ℚ) (i : Nat) : List (ℚ × Nat) → List (ℚ × Nat)
  | [] => []
  | (s, j) :: rest =>
      if s < dot then (dot, i) :: ((s, j) :: rest).dropLast
      else (s, j) :: insertBest dot i rest

/-- predict's top-k tracking arrays after the whole scan: fold the
insertion step over the indexed scores, starting from k sentinel slots
holding -FLT_MAX and index 0. -/
def selectBests (k : Nat) (scores : List ℚ) : List (ℚ × Nat) :=
  scores.enum.foldl (fun b p => insertBest p.2 p.1 b)
    (List.replicate k (-FLT_MAX_Q, 0))

/-- The weighted accumulation loop of predict: each selected slot
contributes its record's output scaled by max(score, 0), and the weights
are totalled; afterwards the output is divided by the total when it is
positive. -/
def blendBests (m : KModel) (bests : List (ℚ × Nat)) : List ℚ :=
  let acc := bests.foldl
    (fun (p : ℚ × List ℚ) b =>
      (p.1 + (if 0 < b.1 then b.1 else 0),
       List.zipWith (fun a o => a + o * (if 0 < b.1 then b.1 else 0)) p.2
         ((m.memory.getD b.2 emptyKMemory).output)))
    (0, List.replicate 64 0)
  if 0 < acc.1 then acc.2.map (fun x => x / acc.1) else acc.2

/-- The successful path of fossil_ai_jellyfish_predict: normalize a copy
of the input, score every record, keep the top k = min(memory_count, 3)
via the insertion pass, and blend their outputs. -/
def predictCore (sqrtf : ℚ → ℚ) (m : KModel) (input : List ℚ) : List ℚ :=
  let norm_input := fossil_ai_jellyfish_normalize_embedding sqrtf input
  let k := if m.memory.length < 3 then m.memory.length else 3
  let scores := m.memory.map (fun s => dotQ norm_input s.embedding)
  blendBests m (selectBests k scores)

/-- fossil_ai_jellyfish_predict: returns false without touching the
output buffer when the model, input or output pointer is NULL, when the
model is untrained, or when its memory is empty; otherwise writes the
blended output and returns true.  The second component models the
output buffer: none means the caller's buffer was never written. -/
def fossil_ai_jellyfish_predict (sqrtf : ℚ → ℚ) (model? : Option KModel)
    (input? : Option (List ℚ)) (outputIsNull : Bool) :
    Bool × Option (List ℚ) :=
  match model?, input?, outputIsNull with
  | some m, some input, false =>
      if m.trained = false ∨ m.memory.length = 0 then (false, none)
      else (true, some (predictCore sqrtf m input))
  | _, _, _ => (false, none)

/-! ## Spec-side definitions for claim C5, from the spec's words -/

/-- The spec's ranking of scored records: higher similarity first, and
the earliest-inserted (smaller index) record wins ties. -/
def specRank (a b : ℚ × Nat) : Prop :=
  b.1 < a.1 ∨ (a.1 = b.1 ∧ a.2 ≤ b.2)

instance : DecidableRel specRank := fun a b => by
  unfold specRank
  infer_instance

instance : IsTrans (ℚ × Nat) specRank := by
  constructor
  intro a b c hab hbc
  unfold specRank at *
  rcases hab with h1 | ⟨e1, i1⟩ <;> rcases hbc with h2 | ⟨e2, i2⟩
  · exact Or.inl (h2.trans h1)
  · exact Or.inl (by rw [← e2]; exact h1)
  · exact Or.inl (by rw [e1]; exact h2)
  · exact Or.inr ⟨e1.trans e2, i1.trans i2⟩

instance : IsTotal (ℚ × Nat) specRank := by
  constructor
  intro a b
  unfold specRank
  rcases lt_trichotomy a.1 b.1 with h | h | h
  · exact Or.inr (Or.inl h)
  · rcases Nat.le_total a.2 b.2 with hi | hi
    · exact Or.inl (Or.inr ⟨h, hi⟩)
    · exact Or.inr (Or.inr ⟨h.symm, hi⟩)
  · exact Or.inl (Or.inl h)

instance : IsAntisymm (ℚ × Nat) specRank := by
  constructor
  intro a b hab hba
  unfold specRank at *
  rcases hab with h1 | ⟨e1, i1⟩ <;> rcases hba with h2 | ⟨e2, i2⟩
  · exact absurd h2 (lt_asymm h1)
  · exact absurd h1 (by rw [e2]; exact lt_irrefl a.1)
  · exact absurd h2 (by rw [e1]; exact lt_irrefl b.1)
  · exact Prod.ext e1 (Nat.le_antisymm i1 i2)

/-- Modelled from the spec: the top-k scored records, selected by
similarity score with the earliest-inserted record winning ties. -/
def specTopK (k : Nat) (scored : List (ℚ × Nat)) : List (ℚ × Nat) :=
  (List.insertionSort specRank scored).take k

/-- The canonical shape of predict's tracking arrays part-way through
the scan: the best elements seen so far, padded with sentinel slots up
to length k. -/
def padTake (k : Nat) (M : List (ℚ × Nat)) : List (ℚ × Nat) :=
  (M ++ List.replicate k (-FLT_MAX_Q, 0)).take k

/-- Left-fold insertion sort by the spec ranking, matching the order in
which predict consumes the records. -/
def sortL (L : List (ℚ × Nat)) : List (ℚ × Nat) :=
  L.foldl (fun acc x => List.orderedInsert specRank x acc) []

/-- The indexed scores of a query against the store, as (score, index)
pairs in insertion order. -/
def scoredOf (m : KModel) (norm_input : List ℚ) : List (ℚ × Nat) :=
  (m.memory.map (fun s => dotQ norm_input s.embedding)).enum.map
    (fun p => (p.2, p.1))

/-- Modelled from the spec, with the fallback corrected to what the code
does: weight each selected record by max(score, 0) and divide the
weighted sum of outputs by the total weight; when every weight is zero
the result is the zero vector (the code skips the division and leaves
the zero-initialized accumulation buffer). -/
def specBlendZeroFallback (m : KModel) (sel : List (ℚ × Nat)) : List ℚ :=
  let total := (sel.map (fun p => if 0 < p.1 then p.1 else 0)).sum
  let weighted := sel.foldl
    (fun acc p =>
      List.zipWith (fun a o => a + o * (if 0 < p.1 then p.1 else 0)) acc
        ((m.memory.getD p.2 emptyKMemory).output))
    (List.replicate 64 0)
  if 0 < total then weighted.map (fun x => x / total)
  else List.replicate 64 0

/-- Modelled from the spec as claimed: as specBlendZeroFallback, but
with uniform weights over the top-k when all weights are zero, so the
fallback output is the plain average of the selected outputs. -/
def specBlendUniformFallback (m : KModel) (sel : List (ℚ × Nat)) : List ℚ :=
  let total := (sel.map (fun p => if 0 < p.1 then p.1 else 0)).sum
  let weighted := sel.foldl
    (fun acc p =>
      List.zipWith (fun a o => a + o * (if 0 < p.1 then p.1 else 0)) acc
        ((m.memory.getD p.2 emptyKMemory).output))
    (List.replicate 64 0)
  if 0 < total then weighted.map (fun x => x / total)
  else
    (sel.foldl
      (fun acc p =>
        List.zipWith (fun a o => a + o) acc
          ((m.memory.getD p.2 emptyKMemory).output))
      (List.replicate 64 0)).map (fun x => x / sel.length)

/-- The spec's description of predict, fallback as claimed (uniform):
used to refute the claim as stated. -/
def specPredictClaim (sqrtf : ℚ → ℚ) (m : KModel) (input : List ℚ) : List ℚ :=
  let norm_input := fossil_ai_jellyfish_normalize_embedding sqrtf input
  let k := min 3 m.memory.length
  specBlendUniformFallback m (specTopK k (scoredOf m norm_input))

/-- The spec's description of predict with the corrected zero-vector
fallback: the amended claim. -/
def specPredictAmended (sqrtf : ℚ → ℚ) (m : KModel) (input : List ℚ) : List ℚ :=
  let norm_input := fossil_ai_jellyfish_normalize_embedding sqrtf input
  let k := min 3 m.memory.length
  specBlendZeroFallback m (specTopK k (scoredOf m norm_input))

/-- A concrete one-record trained model used to refute the uniform
fallback: its single normalized embedding points along the first axis
and its stored output is 5 there. -/
def mOpp : KModel :=
  ⟨[0x6d], 1,
   [⟨1 :: List.replicate 63 0, 5 :: List.replicate 63 0, 0, List.replicate 64 0⟩],
   true⟩

/-- The query opposite to the stored embedding: similarity -1, so the
selected record's weight max(-1, 0) is zero. -/
def inputOpp : List ℚ := (-1) :: List.replicate 63 0

/-- The query aligned with mOpp's stored embedding: similarity 1, a
positive weight, exercising the weighted-blend path. -/
def inputPos : List ℚ := 1 :: List.replicate 63 0

end Knn

/-! # Theorems -/

/-- Claim C3: compute applied to the empty byte sequence returns the
well-known SHA-256 empty-string digest e3b0...b855, and compute applied
to the three bytes of the string abc returns the RFC-6234 test-vector
digest ba7816bf...f20015ad. -/
theorem c3_sha256_test_vectors :
    sha256Bytes [] =
      [0xe3, 0xb0, 0xc4, 0x42, 0x98, 0xfc, 0x1c, 0x14,
       0x9a, 0xfb, 0xf4, 0xc8, 0x99, 0x6f, 0xb9, 0x24,
       0x27, 0xae, 0x41, 0xe4, 0x64, 0x9b, 0x93, 0x4c,
       0xa4, 0x95, 0x99, 0x1b, 0x78, 0x52, 0xb8, 0x55] ∧
    sha256Bytes [0x61, 0x62, 0x63] =
      [0xba, 0x78, 0x16, 0xbf, 0x8f, 0x01, 0xcf, 0xea,
       0x41, 0x41, 0x40, 0xde, 0x5d, 0xae, 0x22, 0x23,
       0xb0, 0x03, 0x61, 0xa3, 0x96, 0x17, 0x7a, 0x9c,
       0xb4, 0x10, 0xff, 0x61, 0xf2, 0x00, 0x15, 0xad] := by
  exact ⟨by decide, by decide⟩

theorem sha256Round_length (st : List Nat) (km : Nat × Nat) :
    (sha256Round st km).length = st.length := by
  unfold sha256Round
  split <;> simp

theorem foldl_sha256Round_length (l : List (Nat × Nat)) (st : List Nat) :
    (l.foldl sha256Round st).length = st.length := by
  induction l generalizing st with
  | nil => rfl
  | cons x xs ih => simp [List.foldl_cons, ih, sha256Round_length]

theorem sha256_transform_length (st : List Nat) (block : List Nat)
    (h : st.length = 8) : (sha256_transform st block).length = 8 := by
  unfold sha256_transform
  simp [List.length_zipWith, foldl_sha256Round_length, h]

theorem foldl_sha256_transform_length (blocks : List (List Nat)) (st : List Nat)
    (h : st.length = 8) : (blocks.foldl sha256_transform st).length = 8 := by
  induction blocks generalizing st with
  | nil => exact h
  | cons b bs ih => exact ih _ (sha256_transform_length _ _ h)

theorem flatMap_be32_length (l : List Nat) : (l.flatMap be32).length = 4 * l.length := by
  induction l with
  | nil => rfl
  | cons x xs ih => simp [List.flatMap_cons, ih, be32]; ring

theorem sha256Bytes_length (msg : List Nat) : (sha256Bytes msg).length = 32 := by
  unfold sha256Bytes
  rw [flatMap_be32_length, foldl_sha256_transform_length]; rfl

/-- Claim C7 is false on the code: compute the digest of the empty
message, then the digest of the bytes of abc; the bytes read through the
first returned Hash have changed (they now hold the second digest),
because both Hash values point at the same per-process buffer. -/
theorem c7_hash_mutated_counterexample :
    readHashBytes (compute_sha256_call
        (compute_sha256_call ⟨List.replicate 32 0⟩ []).1 [0x61, 0x62, 0x63]).1
        (compute_sha256_call ⟨List.replicate 32 0⟩ []).2 ≠
      readHashBytes (compute_sha256_call ⟨List.replicate 32 0⟩ []).1
        (compute_sha256_call ⟨List.replicate 32 0⟩ []).2 := by
  decide

/-- Claim C7 amended: a Hash returned by compute_sha256 aliases the one
shared digest buffer, so its observed bytes equal the digest of the most
recent computation; they hold the first computation's digest only until
the next computation runs. -/
theorem c7_hash_aliases_latest_digest (st : HashStaticState)
    (msg1 msg2 : List Nat) :
    readHashBytes (compute_sha256_call st msg1).1 (compute_sha256_call st msg1).2 =
      sha256Bytes msg1 ∧
    readHashBytes (compute_sha256_call (compute_sha256_call st msg1).1 msg2).1
        (compute_sha256_call st msg1).2 =
      sha256Bytes msg2 := by
  exact ⟨rfl, rfl⟩

/-- Claim C2 is false on the code: for the first train entry with
dataset id given by the byte of the letter a, the entry hash the code
stores is SHA-256 of that byte alone, and it differs from
SHA256(prev_hash, op, dataset_id) under either reading of the
empty-chain sentinel (32 zero bytes, or the digest of the empty string);
moreover the retrain record for the same dataset id stores the very same
entry hash, so the op byte demonstrably does not enter the digest. -/
theorem c2_entry_hash_counterexample :
    appendedEntryHash (fossil_ai_jellyfish_train_append [0x61]) ≠
      specChainEntryHash (List.replicate 32 0) 1 [0x61] ∧
    appendedEntryHash (fossil_ai_jellyfish_train_append [0x61]) ≠
      specChainEntryHash (sha256Bytes []) 1 [0x61] ∧
    appendedEntryHash (fossil_ai_jellyfish_train_append [0x61]) =
      appendedEntryHash (fossil_ai_jellyfish_retrain_append [0x61]) := by
  refine ⟨by decide, by decide, by decide⟩

/-- Claim C2 amended: the entry hash appended with every train, retrain
and untrain record equals SHA-256 of the dataset-id bytes alone; neither
the chain head hash nor the op byte enters the digest, so records with
equal dataset ids carry identical entry hashes regardless of op. -/
theorem c2_entry_hash_is_dataset_digest (ds : List Nat) :
    appendedEntryHash (fossil_ai_jellyfish_train_append ds) = sha256Bytes ds ∧
    appendedEntryHash (fossil_ai_jellyfish_retrain_append ds) = sha256Bytes ds ∧
    appendedEntryHash (fossil_ai_jellyfish_untrain_append ds) = sha256Bytes ds := by
  refine ⟨?_, ?_, ?_⟩ <;>
    simp [appendedEntryHash, fossil_ai_jellyfish_train_append,
      fossil_ai_jellyfish_retrain_append, fossil_ai_jellyfish_untrain_append,
      le32, sha256Bytes_length, List.drop_append_eq_append_drop]

/-- Claim C1 is false on the code: fossil_ai_jellyfish_save_model writes
no trailing hash and fossil_ai_jellyfish_load_model performs no digest
comparison at all, so after flipping one byte inside the weight section
of a saved file, load still returns a model object, and that model
silently carries the corrupted weight. -/
theorem c1_load_model_accepts_corruption_counterexample :
    (Blend.fossil_ai_jellyfish_load_model Blend.corruptedModelAFile).isSome = true ∧
    Option.map Blend.JFModel.weights
        (Blend.fossil_ai_jellyfish_load_model Blend.corruptedModelAFile) =
      some [255] ∧
    Blend.modelA.weights = [0] := by
  refine ⟨by decide, by decide, by decide⟩

/-- Claim C1 amended: only the core-handle loader
fossil_ai_jellyfish_load verifies integrity: it reads the stored 32-byte
hash, recomputes the digest over the file minus its trailing 32 bytes,
and fails closed, returning no model whenever the two digests differ;
the model-struct loader fossil_ai_jellyfish_load_model validates only
magic and version and returns a model regardless of corruption. -/
theorem c1_core_load_fails_closed (bytes : List Nat) (m : Core.CoreModel)
    (stored : List Nat)
    (hp : Core.fossil_ai_jellyfish_load_parse bytes = some (m, stored))
    (hne : stored ≠ sha256Bytes (bytes.take (bytes.length - 32))) :
    Core.fossil_ai_jellyfish_load bytes = none := by
  unfold Core.fossil_ai_jellyfish_load
  rw [hp]
  simp [hne]

/-- Witness for the amended claim C1: a concrete FJMODEL file whose
stored hash is 32 zero bytes, which is not the digest of the rest of the
file, is rejected by fossil_ai_jellyfish_load. -/
theorem c1_core_load_fails_closed_witness :
    Core.fossil_ai_jellyfish_load Core.badHashFile = none :=
  c1_core_load_fails_closed Core.badHashFile ⟨[0x61], [0x62]⟩
    (List.replicate 32 0) (by decide) (by decide)

/-- Claim C8: every model returned by load_model satisfies
memory_len less-or-equal 1024, because the declared count is clamped to
the capacity before the records are read, and add_memory preserves the
bound on every insertion. -/
theorem c8_memory_len_within_capacity :
    (∀ bytes m, Blend.fossil_ai_jellyfish_load_model bytes = some m →
       m.memory_len ≤ 1024) ∧
    (∀ (m : Blend.JFModel) input output embed_len now, m.memory_len ≤ 1024 →
       (Blend.fossil_ai_jellyfish_add_memory m input output embed_len now).memory_len ≤
         1024) := by
  constructor
  · intro bytes m h
    unfold Blend.fossil_ai_jellyfish_load_model at h
    simp only [bind, Option.bind_eq_some] at h
    obtain ⟨⟨magic, r1⟩, -, h⟩ := h
    obtain ⟨⟨version, r2⟩, -, h⟩ := h
    split at h
    · simp only [Option.bind_eq_some] at h
      obtain ⟨⟨insz, r3⟩, -, h⟩ := h
      obtain ⟨⟨outsz, r4⟩, -, h⟩ := h
      obtain ⟨⟨nameB, r5⟩, -, h⟩ := h
      obtain ⟨⟨mlenRaw, r6⟩, -, h⟩ := h
      obtain ⟨⟨mems, r7⟩, -, h⟩ := h
      obtain ⟨⟨wb, r8⟩, -, h⟩ := h
      obtain ⟨rfl⟩ := h
      simp [Nat.min_le_right]
    · exact absurd h (by simp)
  · intro m input output embed_len now h
    unfold Blend.fossil_ai_jellyfish_add_memory
    dsimp only
    split <;> omega

/-- Witness for claim C8: loading the saved bytes of the concrete model
modelA yields a model within capacity, and one insertion into modelA
stays within capacity. -/
theorem c8_memory_len_within_capacity_witness :
    (Blend.fossil_ai_jellyfish_load_model
        (Blend.fossil_ai_jellyfish_save_model Blend.modelA) = some
      ((Blend.fossil_ai_jellyfish_load_model
        (Blend.fossil_ai_jellyfish_save_model Blend.modelA)).getD Blend.modelA) ∧
      ((Blend.fossil_ai_jellyfish_load_model
        (Blend.fossil_ai_jellyfish_save_model Blend.modelA)).getD
          Blend.modelA).memory_len ≤ 1024) ∧
    (Blend.fossil_ai_jellyfish_add_memory Blend.modelA [0] [0] 1 0).memory_len ≤
      1024 := by
  refine ⟨⟨by rfl, ?_⟩, ?_⟩
  · exact c8_memory_len_within_capacity.1
      (Blend.fossil_ai_jellyfish_save_model Blend.modelA)
      ((Blend.fossil_ai_jellyfish_load_model
        (Blend.fossil_ai_jellyfish_save_model Blend.modelA)).getD Blend.modelA)
      (by rfl)
  · exact c8_memory_len_within_capacity.2 Blend.modelA [0] [0] 1 0 (by decide)

namespace Blend

theorem copy_length (dst src : List Nat) (n : Nat) :
    (fossil_ai_jellyfish_copy dst src n).length = dst.length := by
  induction dst generalizing src n with
  | nil => cases n <;> simp [fossil_ai_jellyfish_copy]
  | cons d dst ih =>
      cases n with
      | zero => simp [fossil_ai_jellyfish_copy]
      | succ n =>
          cases src with
          | nil => simpa [fossil_ai_jellyfish_copy] using ih [] n
          | cons s src => simpa [fossil_ai_jellyfish_copy] using ih src n

theorem copy_getD_lt (dst src : List Nat) (n i : Nat) (dfl : Nat)
    (hi : i < n) (hsrc : n ≤ src.length) (hdst : i < dst.length) :
    (fossil_ai_jellyfish_copy dst src n).getD i dfl = src.getD i dfl := by
  induction dst generalizing src n i with
  | nil => simp at hdst
  | cons d dst ih =>
      cases n with
      | zero => omega
      | succ n =>
          cases src with
          | nil => simp at hsrc
          | cons s src =>
              cases i with
              | zero => rfl
              | succ i =>
                  simp only [fossil_ai_jellyfish_copy, List.getD_cons_succ]
                  exact ih src n i (by omega) (by simpa using hsrc) (by simpa using hdst)

theorem copy_getD_ge (dst src : List Nat) (n i : Nat) (dfl : Nat) (h : n ≤ i) :
    (fossil_ai_jellyfish_copy dst src n).getD i dfl = dst.getD i dfl := by
  induction dst generalizing src n i with
  | nil => cases n <;> simp [fossil_ai_jellyfish_copy]
  | cons d dst ih =>
      cases n with
      | zero => simp [fossil_ai_jellyfish_copy]
      | succ n =>
          cases i with
          | zero => omega
          | succ i =>
              cases src with
              | nil =>
                  simp only [fossil_ai_jellyfish_copy, List.getD_cons_succ]
                  exact ih [] n i (by omega)
              | cons s src =>
                  simp only [fossil_ai_jellyfish_copy, List.getD_cons_succ]
                  exact ih src n i (by omega)

theorem safeLen_eq (embed_len out_size : Nat) :
    (if out_size < (if embed_len > 64 then 64 else embed_len) then out_size
     else (if embed_len > 64 then 64 else embed_len)) =
      min (min embed_len 64) out_size := by
  split <;> split at * <;> omega

theorem add_memory_memory_len (m : JFModel) (input output : List Nat)
    (embed_len : Nat) (now : Int) :
    (fossil_ai_jellyfish_add_memory m input output embed_len now).memory_len =
      if m.memory_len < 1024 then m.memory_len + 1 else m.memory_len := rfl

theorem add_memory_memory_length (m : JFModel) (input output : List Nat)
    (embed_len : Nat) (now : Int) :
    (fossil_ai_jellyfish_add_memory m input output embed_len now).memory.length =
      m.memory.length := by
  simp [fossil_ai_jellyfish_add_memory]

theorem add_memory_slot_ne (m : JFModel) (input output : List Nat)
    (embed_len : Nat) (now : Int) (j : Nat) (dfl : JFMemory)
    (hj : j ≠ m.memory_len % 1024) :
    (fossil_ai_jellyfish_add_memory m input output embed_len now).memory.getD j dfl =
      m.memory.getD j dfl := by
  simp only [fossil_ai_jellyfish_add_memory]
  rw [List.getD_eq_getElem?_getD, List.getD_eq_getElem?_getD,
    List.getElem?_set_ne (by omega)]
  simp [List.getD_eq_getElem?_getD]

theorem add_memory_slot_eq (m : JFModel) (input output : List Nat)
    (embed_len : Nat) (now : Int) (hlen : m.memory.length = 1024) :
    (fossil_ai_jellyfish_add_memory m input output embed_len now).memory.getD
        (m.memory_len % 1024) zeroMemory =
      ⟨fossil_ai_jellyfish_copy
          (m.memory.getD (m.memory_len % 1024) zeroMemory).embedding input
          (min (min embed_len 64) m.output_size),
       fossil_ai_jellyfish_copy
          (m.memory.getD (m.memory_len % 1024) zeroMemory).output output
          (min (min embed_len 64) m.output_size), now⟩ := by
  simp only [fossil_ai_jellyfish_add_memory, safeLen_eq]
  rw [List.getD_eq_getElem?_getD,
    List.getElem?_set_self (by rw [hlen]; exact Nat.mod_lt _ (by omega))]
  rfl

end Blend

/-- Claim C10: add_memory copies only the first
min(embed_len, 64, output_size) components of the supplied input and
output vectors into the selected slot (slot memory_len mod 1024); the
slot's embedding and output components beyond this prefix keep their old
values, and every other memory slot is left unchanged. -/
theorem c10_add_memory_frame (m : Blend.JFModel) (input output : List Nat)
    (embed_len : Nat) (now : Int)
    (hmem : m.memory.length = 1024)
    (hslotE : (m.memory.getD (m.memory_len % 1024) Blend.zeroMemory).embedding.length = 64)
    (hslotO : (m.memory.getD (m.memory_len % 1024) Blend.zeroMemory).output.length = 64)
    (hin : min (min embed_len 64) m.output_size ≤ input.length)
    (hout : min (min embed_len 64) m.output_size ≤ output.length) :
    (∀ i < min (min embed_len 64) m.output_size,
      ((Blend.fossil_ai_jellyfish_add_memory m input output embed_len now).memory.getD
          (m.memory_len % 1024) Blend.zeroMemory).embedding.getD i 0 = input.getD i 0 ∧
      ((Blend.fossil_ai_jellyfish_add_memory m input output embed_len now).memory.getD
          (m.memory_len % 1024) Blend.zeroMemory).output.getD i 0 = output.getD i 0) ∧
    (∀ i, min (min embed_len 64) m.output_size ≤ i →
      ((Blend.fossil_ai_jellyfish_add_memory m input output embed_len now).memory.getD
          (m.memory_len % 1024) Blend.zeroMemory).embedding.getD i 0 =
        (m.memory.getD (m.memory_len % 1024) Blend.zeroMemory).embedding.getD i 0 ∧
      ((Blend.fossil_ai_jellyfish_add_memory m input output embed_len now).memory.getD
          (m.memory_len % 1024) Blend.zeroMemory).output.getD i 0 =
        (m.memory.getD (m.memory_len % 1024) Blend.zeroMemory).output.getD i 0) ∧
    (∀ j, j ≠ m.memory_len % 1024 →
      (Blend.fossil_ai_jellyfish_add_memory m input output embed_len now).memory.getD
          j Blend.zeroMemory =
        m.memory.getD j Blend.zeroMemory) := by
  refine ⟨?_, ?_, ?_⟩
  · intro i hi
    rw [Blend.add_memory_slot_eq m input output embed_len now hmem]
    constructor
    · exact Blend.copy_getD_lt _ _ _ _ _ hi hin (by omega)
    · exact Blend.copy_getD_lt _ _ _ _ _ hi hout (by omega)
  · intro i hi
    rw [Blend.add_memory_slot_eq m input output embed_len now hmem]
    exact ⟨Blend.copy_getD_ge _ _ _ _ _ hi, Blend.copy_getD_ge _ _ _ _ _ hi⟩
  · intro j hj
    exact Blend.add_memory_slot_ne m input output embed_len now j _ hj

/-- Witness for claim C10 at the concrete model modelA (one output, so
the copied prefix has length min(1, 64, 1) = 1): component 0 of the
written slot takes the supplied values, component 1 keeps its old value
0, and slot 5 is untouched. -/
theorem c10_add_memory_frame_witness :
    (((Blend.fossil_ai_jellyfish_add_memory Blend.modelA [7] [9] 1 5).memory.getD
        0 Blend.zeroMemory).embedding.getD 0 0 = 7 ∧
      ((Blend.fossil_ai_jellyfish_add_memory Blend.modelA [7] [9] 1 5).memory.getD
        0 Blend.zeroMemory).output.getD 0 0 = 9) ∧
    ((Blend.fossil_ai_jellyfish_add_memory Blend.modelA [7] [9] 1 5).memory.getD
        0 Blend.zeroMemory).embedding.getD 1 0 =
      (Blend.modelA.memory.getD 0 Blend.zeroMemory).embedding.getD 1 0 ∧
    (Blend.fossil_ai_jellyfish_add_memory Blend.modelA [7] [9] 1 5).memory.getD
        5 Blend.zeroMemory =
      Blend.modelA.memory.getD 5 Blend.zeroMemory := by
  have h := c10_add_memory_frame Blend.modelA [7] [9] 1 5
    (by decide) (by decide) (by decide) (by decide) (by decide)
  exact ⟨h.1 0 (by decide), (h.2.1 1 (by decide)).1, h.2.2 5 (by decide)⟩

namespace Blend

theorem replicate_getD_self (k j : Nat) (x : JFMemory) :
    (List.replicate k x).getD j x = x := by
  rw [List.getD_eq_getElem?_getD, List.getElem?_replicate]
  split <;> rfl

theorem insertRecs_memory_length (n : Nat) :
    (insertRecs modelA n).memory.length = 1024 := by
  induction n with
  | zero => rfl
  | succ n ih => rw [insertRecs, add_memory_memory_length, ih]

theorem insertRecs_output_size (n : Nat) :
    (insertRecs modelA n).output_size = 1 := by
  induction n with
  | zero => rfl
  | succ n ih => rw [insertRecs]; exact ih

theorem insertRecs_memory_len (n : Nat) :
    (insertRecs modelA n).memory_len = min n 1024 := by
  induction n with
  | zero => rfl
  | succ n ih =>
      rw [insertRecs, add_memory_memory_len, ih]
      split <;> omega

theorem insertRecs_slot_lengths (n : Nat) (j : Nat) :
    ((insertRecs modelA n).memory.getD j zeroMemory).embedding.length = 64 ∧
    ((insertRecs modelA n).memory.getD j zeroMemory).output.length = 64 := by
  induction n generalizing j with
  | zero =>
      have hz : (insertRecs modelA 0).memory.getD j zeroMemory = zeroMemory :=
        replicate_getD_self 1024 j zeroMemory
      rw [hz]
      exact ⟨rfl, rfl⟩
  | succ n ih =>
      rw [insertRecs]
      by_cases hj : j = (insertRecs modelA n).memory_len % 1024
      · subst hj
        rw [add_memory_slot_eq _ _ _ _ _ (insertRecs_memory_length n)]
        exact ⟨by rw [copy_length]; exact (ih _).1, by rw [copy_length]; exact (ih _).2⟩
      · rw [add_memory_slot_ne _ _ _ _ _ _ _ hj]
        exact ih j

theorem insertRecs_slot1 (n : Nat) (h : 2 ≤ n) :
    (insertRecs modelA n).memory.getD 1 zeroMemory =
      ⟨1 :: List.replicate 63 0, 1 :: List.replicate 63 0, 1⟩ := by
  induction n with
  | zero => omega
  | succ n ih =>
      rcases Nat.lt_or_ge n 2 with hn | hn
      · interval_cases n
        · omega
        · decide
      · rw [insertRecs]
        rw [add_memory_slot_ne _ _ _ _ _ _ _ (by rw [insertRecs_memory_len]; omega)]
        exact ih hn

theorem insertRecs_slot0_late (n : Nat) (h : 1024 ≤ n) :
    ((insertRecs modelA (n + 1)).memory.getD 0 zeroMemory).timestamp = (n : Int) ∧
    ((insertRecs modelA (n + 1)).memory.getD 0 zeroMemory).embedding.getD 0 0 = n := by
  have hidx : (insertRecs modelA n).memory_len % 1024 = 0 := by
    rw [insertRecs_memory_len]; omega
  have hsafe : min (min 1 64) (insertRecs modelA n).output_size = 1 := by
    rw [insertRecs_output_size]
    decide
  rw [insertRecs]
  have hslot := add_memory_slot_eq (insertRecs modelA n) [n] [n] 1 n
    (insertRecs_memory_length n)
  rw [hidx] at hslot
  rw [hslot, hsafe]
  refine ⟨rfl, ?_⟩
  exact copy_getD_lt _ _ _ _ _ (by omega) (by simp) (by
    have := (insertRecs_slot_lengths n 0).1
    omega)

end Blend

/-- Claim C4 is false on the code: with capacity N = 1024, insert
N + 2 = 1026 distinct records (record i has value i and timestamp i)
into a fresh model.  The claim says the 1026th insertion lands in ring
slot 1025 mod 1024 = 1, replacing slot 1; in fact slot 1 still holds
record 1 (timestamp 1, value 1), because once the store is full the
index memory_len mod 1024 is always 0, and the 1026th record went to
slot 0 (whose timestamp is 1025). -/
theorem c4_ring_policy_counterexample :
    (Blend.insertRecs Blend.modelA 1026).memory_len = 1024 ∧
    ((Blend.insertRecs Blend.modelA 1026).memory.getD 1 Blend.zeroMemory).timestamp = 1 ∧
    ((Blend.insertRecs Blend.modelA 1026).memory.getD 1
        Blend.zeroMemory).embedding.getD 0 0 = 1 ∧
    ((Blend.insertRecs Blend.modelA 1026).memory.getD 0
        Blend.zeroMemory).timestamp = 1025 := by
  have e : (1025 : Nat) + 1 = 1026 := rfl
  have h0 := Blend.insertRecs_slot0_late 1025 (by omega)
  rw [e] at h0
  have h1 := Blend.insertRecs_slot1 1026 (by omega)
  have hlen := Blend.insertRecs_memory_len 1026
  refine ⟨by omega, ?_, ?_, by exact_mod_cast h0.1⟩
  · rw [h1]
  · rw [h1]
    rfl

/-- Claim C4 amended: each insertion writes slot memory_len mod 1024,
where memory_len equals min(total inserted, 1024), and leaves every
other slot unchanged; slots therefore fill in insertion order until the
store is full, after which every further insertion overwrites slot 0.
After N+1 insertions len equals N, slot 0 has been replaced and slot 1
is unchanged; the policy is not an oldest-first ring, since after N+2
insertions slot 1 is still unchanged. -/
theorem c4_overwrite_policy_amended :
    (∀ (m : Blend.JFModel) input output embed_len now,
      (Blend.fossil_ai_jellyfish_add_memory m input output embed_len now).memory_len =
        (if m.memory_len < 1024 then m.memory_len + 1 else m.memory_len) ∧
      ∀ j, j ≠ m.memory_len % 1024 →
        (Blend.fossil_ai_jellyfish_add_memory m input output embed_len
            now).memory.getD j Blend.zeroMemory =
          m.memory.getD j Blend.zeroMemory) ∧
    (∀ n, (Blend.insertRecs Blend.modelA n).memory_len = min n 1024) ∧
    (∀ n, 2 ≤ n →
      (Blend.insertRecs Blend.modelA n).memory.getD 1 Blend.zeroMemory =
        ⟨1 :: List.replicate 63 0, 1 :: List.replicate 63 0, 1⟩) ∧
    (∀ n, 1024 ≤ n →
      ((Blend.insertRecs Blend.modelA (n + 1)).memory.getD 0
          Blend.zeroMemory).timestamp = (n : Int)) := by
  refine ⟨?_, Blend.insertRecs_memory_len, Blend.insertRecs_slot1, ?_⟩
  · intro m input output embed_len now
    exact ⟨Blend.add_memory_memory_len m input output embed_len now,
      fun j hj => Blend.add_memory_slot_ne m input output embed_len now j _ hj⟩
  · intro n hn
    exact (Blend.insertRecs_slot0_late n hn).1

/-- Witness for the amended claim C4: concrete checks at one insertion
into modelA, at 1026 total insertions for the length and the untouched
slot 1, and at the 1025th insertion for the slot-0 overwrite. -/
theorem c4_overwrite_policy_amended_witness :
    ((Blend.fossil_ai_jellyfish_add_memory Blend.modelA [7] [9] 1 5).memory_len =
      (if Blend.modelA.memory_len < 1024 then Blend.modelA.memory_len + 1
       else Blend.modelA.memory_len)) ∧
    (Blend.fossil_ai_jellyfish_add_memory Blend.modelA [7] [9] 1 5).memory.getD 3
        Blend.zeroMemory = Blend.modelA.memory.getD 3 Blend.zeroMemory ∧
    (Blend.insertRecs Blend.modelA 1026).memory_len = min 1026 1024 ∧
    (Blend.insertRecs Blend.modelA 1026).memory.getD 1 Blend.zeroMemory =
      ⟨1 :: List.replicate 63 0, 1 :: List.replicate 63 0, 1⟩ ∧
    ((Blend.insertRecs Blend.modelA (1024 + 1)).memory.getD 0
        Blend.zeroMemory).timestamp = (1024 : Int) := by
  refine ⟨(c4_overwrite_policy_amended.1 Blend.modelA [7] [9] 1 5).1,
    (c4_overwrite_policy_amended.1 Blend.modelA [7] [9] 1 5).2 3 (by decide),
    c4_overwrite_policy_amended.2.1 1026,
    c4_overwrite_policy_amended.2.2.1 1026 (by omega),
    c4_overwrite_policy_amended.2.2.2 1024 (by omega)⟩

theorem takeN_exact (l r : List Nat) : takeN l.length (l ++ r) = some (l, r) := by
  simp [takeN]

theorem takeN_of_length (n : Nat) (l r : List Nat) (h : l.length = n) :
    takeN n (l ++ r) = some (l, r) := by
  subst h
  exact takeN_exact l r

theorem takeN_self_of_length (n : Nat) (l : List Nat) (h : l.length = n) :
    takeN n l = some (l, []) := by
  subst h
  simp [takeN]

theorem and255_eq_mod (y : Nat) : y &&& 255 = y % 256 :=
  Nat.and_pow_two_sub_one_eq_mod y 8

theorem decodeLE_le32_mod (x : Nat) : decodeLE (le32 x) = x % U32 := by
  simp [decodeLE, le32, and255_eq_mod, Nat.shiftRight_eq_div_pow, U32]
  omega

theorem decodeLE_le32 (x : Nat) (h : x < U32) : decodeLE (le32 x) = x := by
  rw [decodeLE_le32_mod]
  unfold U32
  have h2 : x < 4294967296 := h
  omega

theorem le64b_eq_le32_append (x : Nat) : le64b x = le32 x ++ le32 (x >>> 32) := by
  have h40 : x >>> 40 = (x >>> 32) >>> 8 := by rw [← Nat.shiftRight_add]
  have h48 : x >>> 48 = (x >>> 32) >>> 16 := by rw [← Nat.shiftRight_add]
  have h56 : x >>> 56 = (x >>> 32) >>> 24 := by rw [← Nat.shiftRight_add]
  simp [le64b, le32, h40, h48, h56]

theorem decodeLE_four_append (a b c d : Nat) (v : List Nat) :
    decodeLE ([a, b, c, d] ++ v) =
      a + 256 * (b + 256 * (c + 256 * (d + 256 * decodeLE v))) := by
  simp [decodeLE]

theorem decodeLE_le64 (x : Nat) (h : x < 18446744073709551616) :
    decodeLE (le64b x) = x := by
  rw [le64b_eq_le32_append]
  rw [show le32 x ++ le32 (x >>> 32) =
    [x &&& 255, (x >>> 8) &&& 255, (x >>> 16) &&& 255, (x >>> 24) &&& 255] ++
      le32 (x >>> 32) from rfl]
  rw [decodeLE_four_append, decodeLE_le32_mod]
  simp only [and255_eq_mod, Nat.shiftRight_eq_div_pow, U32]
  norm_num
  omega

theorem readU32_append (x : Nat) (h : x < U32) (r : List Nat) :
    readU32 (le32 x ++ r) = some (x, r) := by
  unfold readU32
  rw [takeN_of_length 4 (le32 x) r rfl]
  simp [decodeLE_le32 x h]

theorem readU64_append (x : Nat) (h : x < 18446744073709551616) (r : List Nat) :
    readU64 (le64b x ++ r) = some (x, r) := by
  unfold readU64
  rw [takeN_of_length 8 (le64b x) r rfl]
  simp [decodeLE_le64 x h]

theorem readI64_append (t : Int) (h1 : -(9223372036854775808 : Int) ≤ t)
    (h2 : t < 9223372036854775808) (r : List Nat) :
    readI64 (i64bytes t ++ r) = some (t, r) := by
  unfold readI64 i64bytes
  rw [takeN_of_length 8 (le64b (t % 18446744073709551616).toNat) r rfl]
  simp only [Option.map_some']
  have hv : ((t % 18446744073709551616).toNat) < 18446744073709551616 := by omega
  rw [decodeLE_le64 _ hv]
  have hdec : decodeI64 ((t % 18446744073709551616).toNat) = t := by
    unfold decodeI64
    split <;> omega
  rw [hdec]

theorem flatMap_le32_length (ws : List Nat) :
    (ws.flatMap le32).length = 4 * ws.length := by
  induction ws with
  | nil => rfl
  | cons w ws ih => simp [List.flatMap_cons, ih, le32]; ring

theorem decode32List_flatMap (ws : List Nat) (h : ∀ w ∈ ws, w < U32) :
    decode32List (ws.flatMap le32) = ws := by
  induction ws with
  | nil => rfl
  | cons w ws ih =>
      have hstep : (w :: ws).flatMap le32 =
          (w &&& 255) :: ((w >>> 8) &&& 255) :: ((w >>> 16) &&& 255) ::
            ((w >>> 24) &&& 255) :: ws.flatMap le32 := rfl
      rw [hstep, decode32List]
      rw [ih (fun x hx => h x (List.mem_cons_of_mem w hx))]
      have : decodeLE [w &&& 255, (w >>> 8) &&& 255, (w >>> 16) &&& 255,
          (w >>> 24) &&& 255] = w := decodeLE_le32 w (h w (List.mem_cons_self w ws))
      rw [this]

theorem parseMemories_roundtrip (slots : List Blend.JFMemory) (r : List Nat)
    (h : ∀ s ∈ slots, Blend.wfSlot s) :
    Blend.fossil_ai_jellyfish_load_model.parseMemories slots.length
      (slots.flatMap Blend.serializeMemory ++ r) = some (slots, r) := by
  induction slots with
  | nil => rfl
  | cons s slots ih =>
      obtain ⟨he, ho, heB, hoB, ht1, ht2⟩ := h s (List.mem_cons_self s slots)
      rw [List.length_cons, List.flatMap_cons,
        Blend.fossil_ai_jellyfish_load_model.parseMemories]
      rw [show Blend.serializeMemory s ++ slots.flatMap Blend.serializeMemory ++ r =
        s.embedding.flatMap le32 ++ (s.output.flatMap le32 ++
          (i64bytes s.timestamp ++ (slots.flatMap Blend.serializeMemory ++ r))) by
        simp [Blend.serializeMemory]]
      simp only [Bind.bind]
      rw [takeN_of_length 256 _ _ (by rw [flatMap_le32_length, he]), Option.some_bind]
      dsimp only
      rw [takeN_of_length 256 _ _ (by rw [flatMap_le32_length, ho]), Option.some_bind]
      dsimp only
      rw [readI64_append s.timestamp ht1 ht2, Option.some_bind]
      dsimp only
      rw [ih (fun x hx => h x (List.mem_cons_of_mem s hx)), Option.some_bind]
      dsimp only
      rw [decode32List_flatMap s.embedding heB, decode32List_flatMap s.output hoB]

theorem parseMemories_roundtrip_count (n : Nat) (slots : List Blend.JFMemory)
    (r : List Nat) (hn : slots.length = n) (h : ∀ s ∈ slots, Blend.wfSlot s) :
    Blend.fossil_ai_jellyfish_load_model.parseMemories n
      (slots.flatMap Blend.serializeMemory ++ r) = some (slots, r) := by
  subst hn
  exact parseMemories_roundtrip slots r h

theorem load_model_of_wf_stream (insz outsz mlen : Nat) (nm recB wB : List Nat)
    (slots : List Blend.JFMemory)
    (hnm : nm.length = 128)
    (hin : insz < 18446744073709551616) (hout : outsz < 18446744073709551616)
    (hmlen : mlen ≤ 1024)
    (hrec : Blend.fossil_ai_jellyfish_load_model.parseMemories mlen (recB ++ wB) =
      some (slots, wB))
    (hwlen : wB.length = 4 * (insz * outsz)) :
    Blend.fossil_ai_jellyfish_load_model
        (le32 0x4A454C59 ++ le32 1 ++ le64b insz ++ le64b outsz ++ nm ++
          le64b mlen ++ recB ++ wB) =
      some ⟨nm, 0, insz, outsz, decode32List wB,
            slots ++ List.replicate (1024 - mlen) Blend.zeroMemory, mlen⟩ := by
  unfold Blend.fossil_ai_jellyfish_load_model
  simp only [List.append_assoc]
  simp only [Bind.bind]
  rw [readU32_append 0x4A454C59 (by decide), Option.some_bind]
  dsimp only
  rw [readU32_append 1 (by decide), Option.some_bind]
  dsimp only
  rw [if_pos (And.intro rfl rfl)]
  rw [readU64_append insz hin, Option.some_bind]
  dsimp only
  rw [readU64_append outsz hout, Option.some_bind]
  dsimp only
  rw [takeN_of_length 128 nm _ hnm, Option.some_bind]
  dsimp only
  rw [readU64_append mlen (by omega), Option.some_bind]
  dsimp only
  rw [Nat.min_eq_left hmlen, hrec, Option.some_bind]
  dsimp only
  rw [takeN_self_of_length (4 * (insz * outsz)) wB hwlen, Option.some_bind]

/-- Claim C6: saving a well-formed model and loading the resulting bytes
yields a model whose name, input_size, output_size, live memory records
and weight array are identical (weights and embeddings compared as their
exact 32-bit float patterns, so bitwise equality). -/
theorem c6_save_load_roundtrip (m : Blend.JFModel)
    (hname : m.name.length = 128)
    (hmlen : m.memory_len ≤ 1024)
    (hmemlen : m.memory.length = 1024)
    (hslots : ∀ s ∈ m.memory.take m.memory_len, Blend.wfSlot s)
    (hw : m.weights.length = m.input_size * m.output_size)
    (hwB : ∀ w ∈ m.weights, w < U32)
    (hin : m.input_size < 18446744073709551616)
    (hout : m.output_size < 18446744073709551616) :
    (Blend.fossil_ai_jellyfish_load_model
        (Blend.fossil_ai_jellyfish_save_model m)).map
      (fun m2 => (m2.name, m2.input_size, m2.output_size,
                  m2.memory.take m2.memory_len, m2.weights)) =
      some (m.name, m.input_size, m.output_size,
            m.memory.take m.memory_len, m.weights) := by
  have hcnt : (m.memory.take m.memory_len).length = m.memory_len := by
    rw [List.length_take, hmemlen]
    omega
  have hbytes : Blend.fossil_ai_jellyfish_save_model m =
      le32 0x4A454C59 ++ le32 1 ++ le64b m.input_size ++ le64b m.output_size ++
        m.name ++ le64b m.memory_len ++
        (m.memory.take m.memory_len).flatMap Blend.serializeMemory ++
        m.weights.flatMap le32 := by
    unfold Blend.fossil_ai_jellyfish_save_model
    rw [Nat.min_eq_left hmlen]
  rw [hbytes, load_model_of_wf_stream m.input_size m.output_size m.memory_len
    m.name ((m.memory.take m.memory_len).flatMap Blend.serializeMemory)
    (m.weights.flatMap le32) (m.memory.take m.memory_len)
    hname hin hout hmlen
    (parseMemories_roundtrip_count m.memory_len (m.memory.take m.memory_len)
      (m.weights.flatMap le32) hcnt hslots)
    (by rw [flatMap_le32_length, hw])]
  rw [Option.map_some']
  rw [decode32List_flatMap m.weights hwB]
  rw [List.take_left' hcnt]

/-- Witness for claim C6: the concrete model modelA round-trips through
save and load with its name, sizes, memory and weights intact. -/
theorem c6_save_load_roundtrip_witness :
    (Blend.fossil_ai_jellyfish_load_model
        (Blend.fossil_ai_jellyfish_save_model Blend.modelA)).map
      (fun m2 => (m2.name, m2.input_size, m2.output_size,
                  m2.memory.take m2.memory_len, m2.weights)) =
      some (Blend.modelA.name, Blend.modelA.input_size, Blend.modelA.output_size,
            Blend.modelA.memory.take Blend.modelA.memory_len,
            Blend.modelA.weights) :=
  c6_save_load_roundtrip Blend.modelA (by decide) (by decide) (by decide)
    (by decide) (by decide) (by decide) (by decide) (by decide)


/-- Claim C9: predict returns false and leaves the caller's output
buffer unwritten whenever the model, input or output pointer is NULL,
the model is untrained, or its memory is empty; a freshly created model
always fails predict; train_model leaves trained set only when it
succeeded on a model with at least one memory record; add_memory never
changes the trained flag; and predict returns true only on a trained
model with non-empty memory. -/
theorem c9_predict_guards :
    (∀ (sqrtf : ℚ → ℚ) input? b,
      Knn.fossil_ai_jellyfish_predict sqrtf none input? b = (false, none)) ∧
    (∀ (sqrtf : ℚ → ℚ) model? b,
      Knn.fossil_ai_jellyfish_predict sqrtf model? none b = (false, none)) ∧
    (∀ (sqrtf : ℚ → ℚ) model? input?,
      Knn.fossil_ai_jellyfish_predict sqrtf model? input? true = (false, none)) ∧
    (∀ (sqrtf : ℚ → ℚ) (m : Knn.KModel) input, m.trained = false →
      Knn.fossil_ai_jellyfish_predict sqrtf (some m) (some input) false =
        (false, none)) ∧
    (∀ (sqrtf : ℚ → ℚ) (m : Knn.KModel) input, m.memory = [] →
      Knn.fossil_ai_jellyfish_predict sqrtf (some m) (some input) false =
        (false, none)) ∧
    (∀ (sqrtf : ℚ → ℚ) name input,
      Knn.fossil_ai_jellyfish_predict sqrtf
        (some (Knn.fossil_ai_jellyfish_create_model name)) (some input) false =
        (false, none)) ∧
    (∀ (sqrtf : ℚ → ℚ) (m : Knn.KModel),
      (Knn.fossil_ai_jellyfish_train_model sqrtf m).1.trained = true →
      (Knn.fossil_ai_jellyfish_train_model sqrtf m).2 = true ∧ m.memory ≠ []) ∧
    (∀ (m : Knn.KModel) e o id ts m2,
      Knn.fossil_ai_jellyfish_add_memory m e o id ts = some m2 →
      m2.trained = m.trained) ∧
    (∀ (sqrtf : ℚ → ℚ) (m : Knn.KModel) input,
      (Knn.fossil_ai_jellyfish_predict sqrtf (some m) (some input) false).1 = true →
      m.trained = true ∧ m.memory ≠ []) := by
  refine ⟨fun _ i b => by cases i <;> cases b <;> rfl,
    fun _ mo b => by cases mo <;> cases b <;> rfl,
    fun _ mo i => by cases mo <;> cases i <;> rfl,
    fun _ m input h => by
      simp [Knn.fossil_ai_jellyfish_predict, h],
    fun _ m input h => by
      simp [Knn.fossil_ai_jellyfish_predict, h],
    fun _ name input => by
      simp [Knn.fossil_ai_jellyfish_predict, Knn.fossil_ai_jellyfish_create_model],
    fun sqrtf m h => by
      unfold Knn.fossil_ai_jellyfish_train_model at h ⊢
      by_cases hz : m.memory.length = 0
      · rw [if_pos hz] at h
        simp at h
      · rw [if_neg hz]
        refine ⟨rfl, ?_⟩
        intro hnil
        rw [hnil] at hz
        simp at hz,
    fun m e o id ts m2 h => by
      unfold Knn.fossil_ai_jellyfish_add_memory at h
      split at h
      · simp at h
      · obtain ⟨rfl⟩ := h
        rfl,
    fun sqrtf m input h => by
      have hev : Knn.fossil_ai_jellyfish_predict sqrtf (some m) (some input) false =
          (if m.trained = false ∨ m.memory.length = 0 then (false, none)
           else (true, some (Knn.predictCore sqrtf m input))) := rfl
      rw [hev] at h
      split at h
      · simp at h
      · next hcond =>
          push_neg at hcond
          refine ⟨?_, ?_⟩
          · cases htr : m.trained
            · exact absurd htr hcond.1
            · rfl
          · intro hnil
            exact hcond.2 (by rw [hnil]; rfl)⟩

/-- Witness for claim C9: concrete checks of each guard with a concrete
function standing for sqrtf, the fresh model of name byte m, and the
one-record model mOpp. -/
theorem c9_predict_guards_witness :
    Knn.fossil_ai_jellyfish_predict (fun q => q) none (some Knn.inputOpp) false =
      (false, none) ∧
    Knn.fossil_ai_jellyfish_predict (fun q => q) (some Knn.mOpp) none false =
      (false, none) ∧
    Knn.fossil_ai_jellyfish_predict (fun q => q) (some Knn.mOpp)
      (some Knn.inputOpp) true = (false, none) ∧
    Knn.fossil_ai_jellyfish_predict (fun q => q)
      (some { Knn.mOpp with trained := false }) (some Knn.inputOpp) false =
      (false, none) ∧
    Knn.fossil_ai_jellyfish_predict (fun q => q)
      (some { Knn.mOpp with memory := [] }) (some Knn.inputOpp) false =
      (false, none) ∧
    Knn.fossil_ai_jellyfish_predict (fun q => q)
      (some (Knn.fossil_ai_jellyfish_create_model [0x6d])) (some Knn.inputOpp)
      false = (false, none) ∧
    ((Knn.fossil_ai_jellyfish_train_model (fun q => q) Knn.mOpp).2 = true ∧
      Knn.mOpp.memory ≠ []) ∧
    ({ Knn.mOpp with memory := Knn.mOpp.memory ++
        [⟨[1], [2], 7, Blend.strncpyFixed [3] 64 63⟩] } : Knn.KModel).trained =
      Knn.mOpp.trained ∧
    (Knn.mOpp.trained = true ∧ Knn.mOpp.memory ≠ []) := by
  refine ⟨c9_predict_guards.1 (fun q => q) (some Knn.inputOpp) false,
    c9_predict_guards.2.1 (fun q => q) (some Knn.mOpp) false,
    c9_predict_guards.2.2.1 (fun q => q) (some Knn.mOpp) (some Knn.inputOpp),
    c9_predict_guards.2.2.2.1 (fun q => q) _ Knn.inputOpp (by decide),
    c9_predict_guards.2.2.2.2.1 (fun q => q) _ Knn.inputOpp (by decide),
    c9_predict_guards.2.2.2.2.2.1 (fun q => q) [0x6d] Knn.inputOpp,
    c9_predict_guards.2.2.2.2.2.2.1 (fun q => q) Knn.mOpp (by decide),
    c9_predict_guards.2.2.2.2.2.2.2.1 Knn.mOpp [1] [2] [3] 7 _ (by decide),
    c9_predict_guards.2.2.2.2.2.2.2.2 (fun q => q) Knn.mOpp Knn.inputOpp
      (by decide)⟩

/-- Claim C5 is false on the code: for the one-record trained model mOpp
queried with the opposite input, the single selected record's weight
max(-1, 0) is zero, and predict returns the all-zero vector, not the
uniform-weight blend of the top-k outputs (which would be the record's
output, 5 in component 0) that the claim describes. -/
theorem c5_uniform_fallback_counterexample :
    Knn.fossil_ai_jellyfish_predict (fun q => q) (some Knn.mOpp)
      (some Knn.inputOpp) false = (true, some (List.replicate 64 0)) ∧
    Knn.specPredictClaim (fun q => q) Knn.mOpp Knn.inputOpp =
      5 :: List.replicate 63 0 ∧
    List.replicate 64 (0 : ℚ) ≠ 5 :: List.replicate 63 0 := by
  refine ⟨by with_unfolding_all decide, by with_unfolding_all decide,
    by with_unfolding_all decide⟩

namespace Knn

/-- Taking n elements of a list padded with sentinel slots does not
depend on the pad length once the pad reaches n. -/
theorem take_append_replicate_stable (n j1 j2 : Nat) (M : List (ℚ × Nat))
    (s : ℚ × Nat) (h1 : n ≤ M.length + j1) (h2 : n ≤ M.length + j2) :
    (M ++ List.replicate j1 s).take n = (M ++ List.replicate j2 s).take n := by
  rw [List.take_append_eq_append_take, List.take_append_eq_append_take]
  congr 1
  rw [List.take_replicate, List.take_replicate]
  congr 1
  omega

/-- The padded prefix always has exactly k slots. -/
theorem padTake_length (k : Nat) (M : List (ℚ × Nat)) :
    (padTake k M).length = k := by
  unfold padTake
  rw [List.length_take, List.length_append, List.length_replicate]
  omega

/-- Dropping the last slot of a (k+1)-slot padded prefix gives the
k-slot padded prefix of the same elements. -/
theorem dropLast_padTake (k : Nat) (M : List (ℚ × Nat)) :
    (padTake (k + 1) M).dropLast = padTake k M := by
  rw [List.dropLast_eq_take, padTake_length]
  simp only [Nat.add_sub_cancel]
  unfold padTake
  rw [List.take_take]
  have hmin : min k (k + 1) = k := by omega
  rw [hmin]
  exact take_append_replicate_stable k (k + 1) k M (-FLT_MAX_Q, 0)
    (by omega) (by omega)

/-- The key step: when the incoming record's index exceeds every stored
index and its score beats the sentinel, predict's insertion step on a
padded prefix is ordered insertion followed by padding. -/
theorem insertBest_padTake (x : ℚ × Nat) (M : List (ℚ × Nat)) (k : Nat)
    (hidx : ∀ p ∈ M, p.2 < x.2) (hx : -FLT_MAX_Q < x.1) :
    insertBest x.1 x.2 (padTake k M) =
      padTake k (List.orderedInsert specRank x M) := by
  induction M generalizing k with
  | nil =>
      cases k with
      | zero => rfl
      | succ k =>
          have hL : padTake (k + 1) ([] : List (ℚ × Nat)) =
              (-FLT_MAX_Q, 0) :: List.replicate k (-FLT_MAX_Q, 0) := by
            simp [padTake, List.replicate_succ]
          rw [hL, insertBest, if_pos hx]
          have hdrop : (((-FLT_MAX_Q, 0) : ℚ × Nat) ::
              List.replicate k ((-FLT_MAX_Q : ℚ), 0)).dropLast =
              List.replicate k ((-FLT_MAX_Q : ℚ), 0) := by
            rw [← List.replicate_succ, List.replicate_succ', List.dropLast_concat]
          rw [hdrop]
          have hR : padTake (k + 1) (List.orderedInsert specRank x []) =
              (x.1, x.2) :: List.replicate k (-FLT_MAX_Q, 0) := by
            show padTake (k + 1) [x] = _
            unfold padTake
            rw [List.cons_append, List.take_succ_cons, List.nil_append,
              List.take_replicate]
            have hmin : min k (k + 1) = k := by omega
            rw [hmin]
          rw [hR]
  | cons m M ih =>
      obtain ⟨ms, mi⟩ := m
      have hmx : mi < x.2 := hidx (ms, mi) (List.mem_cons_self _ _)
      by_cases hcmp : ms < x.1
      · have hr : specRank x (ms, mi) := Or.inl hcmp
        have hoi : List.orderedInsert specRank x ((ms, mi) :: M) =
            x :: (ms, mi) :: M := by
          rw [List.orderedInsert, if_pos hr]
        cases k with
        | zero => rfl
        | succ k =>
            have hform : padTake (k + 1) ((ms, mi) :: M) =
                (ms, mi) ::
                  (M ++ List.replicate (k + 1) ((-FLT_MAX_Q : ℚ), 0)).take k := by
              unfold padTake
              rw [List.cons_append, List.take_succ_cons]
            rw [hform, insertBest, if_pos hcmp, ← hform]
            rw [dropLast_padTake, hoi]
            have hx2 : padTake (k + 1) (x :: (ms, mi) :: M) =
                x :: padTake k ((ms, mi) :: M) := by
              unfold padTake
              rw [List.cons_append, List.take_succ_cons]
              congr 1
              exact take_append_replicate_stable k (k + 1) k ((ms, mi) :: M) _
                (by omega) (by omega)
            rw [hx2]
      · have hr : ¬ specRank x (ms, mi) := by
          intro hcon
          rcases hcon with h | ⟨he, hi⟩
          · exact hcmp h
          · have hi2 : x.2 ≤ mi := hi
            omega
        have hoi : List.orderedInsert specRank x ((ms, mi) :: M) =
            (ms, mi) :: List.orderedInsert specRank x M := by
          rw [List.orderedInsert, if_neg hr]
        cases k with
        | zero => rfl
        | succ k =>
            have hform : padTake (k + 1) ((ms, mi) :: M) =
                (ms, mi) ::
                  (M ++ List.replicate (k + 1) ((-FLT_MAX_Q : ℚ), 0)).take k := by
              unfold padTake
              rw [List.cons_append, List.take_succ_cons]
            rw [hform, insertBest, if_neg hcmp]
            have htail : (M ++ List.replicate (k + 1) ((-FLT_MAX_Q : ℚ), 0)).take k =
                padTake k M := by
              unfold padTake
              exact take_append_replicate_stable k (k + 1) k M _
                (by omega) (by omega)
            rw [htail, ih k (fun p hp => hidx p (List.mem_cons_of_mem _ hp)), hoi]
            unfold padTake
            rw [List.cons_append, List.take_succ_cons]
            congr 1
            exact take_append_replicate_stable k k (k + 1) _ _
              (by omega) (by omega)

/-- Left-fold insertion sort consumes an appended element by ordered
insertion into the sorted prefix. -/
theorem sortL_append_singleton (L : List (ℚ × Nat)) (x : ℚ × Nat) :
    sortL (L ++ [x]) = List.orderedInsert specRank x (sortL L) := by
  unfold sortL
  rw [List.foldl_append]
  rfl

/-- Left-fold insertion sort permutes its input. -/
theorem sortL_perm (L : List (ℚ × Nat)) : List.Perm (sortL L) L := by
  induction L using List.reverseRecOn with
  | nil => exact List.Perm.refl []
  | append_singleton L x ih =>
      rw [sortL_append_singleton]
      exact ((List.perm_orderedInsert specRank x (sortL L)).trans
        (ih.cons x)).trans (List.perm_append_singleton x L).symm

/-- Left-fold insertion sort sorts by the spec ranking. -/
theorem sortL_sorted (L : List (ℚ × Nat)) : List.Sorted specRank (sortL L) := by
  induction L using List.reverseRecOn with
  | nil => exact List.sorted_nil
  | append_singleton L x ih =>
      rw [sortL_append_singleton]
      exact List.Sorted.orderedInsert x (sortL L) ih

/-- Left-fold insertion sort agrees with Mathlib's insertionSort. -/
theorem sortL_eq_insertionSort (L : List (ℚ × Nat)) :
    sortL L = List.insertionSort specRank L :=
  List.eq_of_perm_of_sorted
    ((sortL_perm L).trans (List.perm_insertionSort specRank L).symm)
    (sortL_sorted L) (List.sorted_insertionSort specRank L)

/-- Every member of an indexed enumeration carries an index in range. -/
theorem enumFrom_bounds {α : Type} (l : List α) (n : Nat) (p : Nat × α)
    (hp : p ∈ List.enumFrom n l) : n ≤ p.1 ∧ p.1 < n + l.length := by
  induction l generalizing n with
  | nil => exact absurd hp (by simp [List.enumFrom])
  | cons a l ih =>
      rw [List.enumFrom] at hp
      rcases List.mem_cons.mp hp with h | h
      · subst h
        refine ⟨Nat.le_refl n, ?_⟩
        show n < n + (a :: l).length
        rw [List.length_cons]
        omega
      · have h3 := ih (n + 1) h
        have hl : (a :: l).length = l.length + 1 := List.length_cons a l
        omega

/-- The indices of an enumeration are strictly increasing. -/
theorem enumFrom_pairwise_idx {α : Type} (l : List α) (n : Nat) :
    List.Pairwise (fun a b : Nat × α => a.1 < b.1) (List.enumFrom n l) := by
  induction l generalizing n with
  | nil => exact List.Pairwise.nil
  | cons a l ih =>
      rw [List.enumFrom]
      refine List.Pairwise.cons ?_ (ih (n + 1))
      intro b hb
      have hbnd := enumFrom_bounds l (n + 1) b hb
      show n < b.1
      omega

/-- The scored records of a query are listed with strictly increasing
store indices. -/
theorem scoredOf_pairwise_idx (m : KModel) (ni : List ℚ) :
    List.Pairwise (fun a b : ℚ × Nat => a.2 < b.2) (scoredOf m ni) := by
  unfold scoredOf
  have h := enumFrom_pairwise_idx (m.memory.map (fun s => dotQ ni s.embedding)) 0
  have he : (m.memory.map (fun s => dotQ ni s.embedding)).enum =
      List.enumFrom 0 (m.memory.map (fun s => dotQ ni s.embedding)) := rfl
  rw [he]
  exact List.Pairwise.map _ (fun a b hab => hab) h

/-- Every scored record's index addresses a live store slot. -/
theorem scoredOf_idx_lt (m : KModel) (ni : List ℚ) (p : ℚ × Nat)
    (hp : p ∈ scoredOf m ni) : p.2 < m.memory.length := by
  unfold scoredOf at hp
  rw [List.mem_map] at hp
  obtain ⟨q, hq, hqe⟩ := hp
  have hq2 : q ∈ List.enumFrom 0 (m.memory.map (fun s => dotQ ni s.embedding)) := hq
  have hb := enumFrom_bounds (m.memory.map (fun s => dotQ ni s.embedding)) 0 q hq2
  have h2 : p.2 = q.1 := by rw [← hqe]
  rw [List.length_map] at hb
  omega

/-- Folding predict's insertion step over records with increasing
indices and above-sentinel scores computes the padded sorted prefix. -/
theorem foldl_insertBest (k : Nat) :
    ∀ L : List (ℚ × Nat),
      List.Pairwise (fun a b : ℚ × Nat => a.2 < b.2) L →
      (∀ p ∈ L, -FLT_MAX_Q < p.1) →
      L.foldl (fun b q => insertBest q.1 q.2 b) (padTake k []) =
        padTake k (sortL L) := by
  intro L
  induction L using List.reverseRecOn with
  | nil => intro _ _; rfl
  | append_singleton L x ih =>
      intro hinc hsc
      rw [List.foldl_append, List.foldl_cons, List.foldl_nil]
      rw [List.pairwise_append] at hinc
      rw [ih hinc.1 (fun p hp => hsc p (List.mem_append_left _ hp))]
      have hidx : ∀ p ∈ sortL L, p.2 < x.2 := by
        intro p hp
        exact hinc.2.2 p ((sortL_perm L).subset hp) x (List.mem_singleton_self x)
      rw [insertBest_padTake x (sortL L) k hidx
        (hsc x (List.mem_append_right _ (List.mem_singleton_self x)))]
      rw [sortL_append_singleton]

/-- Predict's insertion pass computes exactly the spec's top-k selected
records, provided k does not exceed the store and every score beats the
sentinel. -/
theorem selectBests_eq_specTopK (m : KModel) (ni : List ℚ) (k : Nat)
    (hk : k ≤ m.memory.length)
    (hsc : ∀ p ∈ scoredOf m ni, -FLT_MAX_Q < p.1) :
    selectBests k (m.memory.map (fun s => dotQ ni s.embedding)) =
      specTopK k (scoredOf m ni) := by
  unfold selectBests specTopK
  have hfold : (m.memory.map (fun s => dotQ ni s.embedding)).enum.foldl
      (fun b p => insertBest p.2 p.1 b) (List.replicate k (-FLT_MAX_Q, 0)) =
      (scoredOf m ni).foldl (fun b q => insertBest q.1 q.2 b)
        (List.replicate k (-FLT_MAX_Q, 0)) := by
    unfold scoredOf
    rw [List.foldl_map]
  rw [hfold]
  have hinit : (List.replicate k ((-FLT_MAX_Q : ℚ), 0) : List (ℚ × Nat)) =
      padTake k [] := by
    unfold padTake
    rw [List.nil_append, List.take_replicate]
    rw [Nat.min_self]
  rw [hinit, foldl_insertBest k (scoredOf m ni) (scoredOf_pairwise_idx m ni) hsc,
    sortL_eq_insertionSort]
  unfold padTake
  rw [List.take_append_of_le_length]
  rw [List.length_insertionSort]
  unfold scoredOf
  rw [List.length_map, List.enum_length, List.length_map]
  exact hk

/-- First component of the blend fold: the running total of the clamped
weights. -/
theorem blend_foldl_fst (m : KModel) (l : List (ℚ × Nat)) (c : ℚ) (v : List ℚ) :
    (l.foldl (fun (p : ℚ × List ℚ) b =>
        (p.1 + (if 0 < b.1 then b.1 else 0),
         List.zipWith (fun a o => a + o * (if 0 < b.1 then b.1 else 0)) p.2
           ((m.memory.getD b.2 emptyKMemory).output))) (c, v)).1 =
      c + (l.map (fun p => if 0 < p.1 then p.1 else 0)).sum := by
  induction l generalizing c v with
  | nil => simp
  | cons a l ih =>
      simp only [List.foldl_cons, List.map_cons, List.sum_cons]
      rw [ih]
      ring

/-- Second component of the blend fold: the accumulated weighted output
vector, independent of the weight total. -/
theorem blend_foldl_snd (m : KModel) (l : List (ℚ × Nat)) (c : ℚ) (v : List ℚ) :
    (l.foldl (fun (p : ℚ × List ℚ) b =>
        (p.1 + (if 0 < b.1 then b.1 else 0),
         List.zipWith (fun a o => a + o * (if 0 < b.1 then b.1 else 0)) p.2
           ((m.memory.getD b.2 emptyKMemory).output))) (c, v)).2 =
      l.foldl (fun acc p =>
        List.zipWith (fun a o => a + o * (if 0 < p.1 then p.1 else 0)) acc
          ((m.memory.getD p.2 emptyKMemory).output)) v := by
  induction l generalizing c v with
  | nil => rfl
  | cons a l ih =>
      simp only [List.foldl_cons]
      rw [ih]

/-- Clamped weights are nonnegative, so their total is. -/
theorem weights_sum_nonneg (l : List (ℚ × Nat)) :
    0 ≤ (l.map (fun p => if 0 < p.1 then p.1 else 0)).sum := by
  apply List.sum_nonneg
  intro a ha
  rw [List.mem_map] at ha
  obtain ⟨p, hp, rfl⟩ := ha
  split
  next h => exact le_of_lt h
  next => exact le_refl 0

/-- When the clamped weight total vanishes, every clamped weight does. -/
theorem weights_all_zero (l : List (ℚ × Nat))
    (h : (l.map (fun p => if 0 < p.1 then p.1 else 0)).sum = 0) :
    ∀ p ∈ l, (if 0 < p.1 then (p.1 : ℚ) else 0) = 0 := by
  induction l with
  | nil => intro p hp; exact absurd hp (List.not_mem_nil p)
  | cons a l ih =>
      rw [List.map_cons, List.sum_cons] at h
      have h1 : 0 ≤ (if 0 < a.1 then (a.1 : ℚ) else 0) := by
        split
        next hh => exact le_of_lt hh
        next => exact le_refl 0
      have h2 := weights_sum_nonneg l
      have ha : (if 0 < a.1 then (a.1 : ℚ) else 0) = 0 := by linarith
      have hrest : (l.map (fun p => if 0 < p.1 then p.1 else 0)).sum = 0 := by
        linarith
      intro p hp
      rcases List.mem_cons.mp hp with hq | hq
      · rw [hq]; exact ha
      · exact ih hrest p hq

/-- Accumulating an output with weight zero leaves the zero buffer
unchanged (the output must be long enough for zipWith not to truncate). -/
theorem zipWith_zero_weight (w : ℚ) (hw : w = 0) :
    ∀ (n : Nat) (out : List ℚ), n ≤ out.length →
      List.zipWith (fun a o => a + o * w) (List.replicate n 0) out =
        List.replicate n (0 : ℚ) := by
  subst hw
  intro n
  induction n with
  | zero => intro out h; rfl
  | succ n ih =>
      intro out h
      cases out with
      | nil =>
          rw [List.length_nil] at h
          exact absurd h (by omega)
      | cons o out =>
          rw [List.replicate_succ, List.zipWith_cons_cons]
          rw [ih out (by rw [List.length_cons] at h; omega)]
          rw [mul_zero, add_zero]

/-- When every selected weight is clamped to zero, the blend fold
returns the zero buffer it started from. -/
theorem foldl_blend_zero (m : KModel) :
    ∀ sel : List (ℚ × Nat),
      (∀ p ∈ sel, (if 0 < p.1 then (p.1 : ℚ) else 0) = 0) →
      (∀ p ∈ sel, 64 ≤ ((m.memory.getD p.2 emptyKMemory).output).length) →
      sel.foldl (fun acc p =>
        List.zipWith (fun a o => a + o * (if 0 < p.1 then p.1 else 0)) acc
          ((m.memory.getD p.2 emptyKMemory).output)) (List.replicate 64 0) =
      List.replicate 64 (0 : ℚ) := by
  intro sel
  induction sel with
  | nil => intro _ _; rfl
  | cons a sel ih =>
      intro hz hlen
      simp only [List.foldl_cons]
      rw [zipWith_zero_weight _ (hz a (List.mem_cons_self a sel)) 64 _
        (hlen a (List.mem_cons_self a sel))]
      exact ih (fun p hp => hz p (List.mem_cons_of_mem a hp))
        (fun p hp => hlen p (List.mem_cons_of_mem a hp))

/-- The spec's top-k selection only returns scored records. -/
theorem specTopK_subset (k : Nat) (scored : List (ℚ × Nat)) (p : ℚ × Nat)
    (hp : p ∈ specTopK k scored) : p ∈ scored := by
  unfold specTopK at hp
  exact (List.perm_insertionSort specRank scored).subset (List.mem_of_mem_take hp)

/-- Reading a live slot of a store whose outputs are all 64-long gives a
64-long output. -/
theorem selected_output_len (m : KModel)
    (hout : ∀ s ∈ m.memory, s.output.length = 64) (i : Nat)
    (hi : i < m.memory.length) :
    ((m.memory.getD i emptyKMemory).output).length = 64 := by
  rw [List.getD_eq_getElem m.memory emptyKMemory hi]
  exact hout _ (List.getElem_mem hi)

/-- On a store of full-length outputs whose scores all beat the
sentinel, predictCore computes the spec's top-k weighted blend with the
zero-vector fallback. -/
theorem predictCore_eq_specAmended (sqrtf : ℚ → ℚ) (m : KModel) (input : List ℚ)
    (hout : ∀ s ∈ m.memory, s.output.length = 64)
    (hsc : ∀ p ∈ scoredOf m (fossil_ai_jellyfish_normalize_embedding sqrtf input),
      -FLT_MAX_Q < p.1) :
    predictCore sqrtf m input = specPredictAmended sqrtf m input := by
  unfold predictCore specPredictAmended
  dsimp only
  have hkeq : (if m.memory.length < 3 then m.memory.length else 3) =
      min 3 m.memory.length := by
    rcases Nat.lt_or_ge m.memory.length 3 with h | h
    · rw [if_pos h]; omega
    · rw [if_neg (by omega)]; omega
  rw [hkeq]
  rw [selectBests_eq_specTopK m (fossil_ai_jellyfish_normalize_embedding sqrtf input)
    (min 3 m.memory.length) (Nat.min_le_right 3 m.memory.length) hsc]
  unfold blendBests specBlendZeroFallback
  dsimp only
  rw [blend_foldl_fst, blend_foldl_snd]
  simp only [zero_add]
  by_cases hpos : 0 < ((specTopK (min 3 m.memory.length)
      (scoredOf m (fossil_ai_jellyfish_normalize_embedding sqrtf input))).map
        (fun p => if 0 < p.1 then p.1 else 0)).sum
  · rw [if_pos hpos, if_pos hpos]
  · rw [if_neg hpos, if_neg hpos]
    have hz := weights_all_zero _
      (le_antisymm (not_lt.mp hpos) (weights_sum_nonneg _))
    exact foldl_blend_zero m _ hz
      (fun p hp => le_of_eq (selected_output_len m hout p.2
        (scoredOf_idx_lt m _ p (specTopK_subset _ _ p hp))).symm)

end Knn

/-- Claim C5 (amended): on a trained non-empty store whose outputs fill
the 64-slot buffer and whose similarity scores all exceed the -FLT_MAX
sentinel, predict succeeds and returns the spec's blend of the top
min(3, memory_count) records ranked by similarity with earliest-inserted
winning ties, each weighted by max(score, 0) and divided by the total
weight - except that when every weight is zero the result is the zero
vector, not the claimed uniform average. -/
theorem c5_predict_topk_amended (sqrtf : ℚ → ℚ) (m : Knn.KModel)
    (input : List ℚ) (ht : m.trained = true) (hmem : m.memory ≠ [])
    (hout : ∀ s ∈ m.memory, s.output.length = 64)
    (hsc : ∀ p ∈ Knn.scoredOf m
        (Knn.fossil_ai_jellyfish_normalize_embedding sqrtf input),
      -Knn.FLT_MAX_Q < p.1) :
    Knn.fossil_ai_jellyfish_predict sqrtf (some m) (some input) false =
      (true, some (Knn.specPredictAmended sqrtf m input)) := by
  have hcond : ¬ (m.trained = false ∨ m.memory.length = 0) := by
    intro hcon
    rcases hcon with h | h
    · rw [ht] at h
      exact Bool.noConfusion h
    · exact hmem (List.length_eq_zero.mp h)
  show (if m.trained = false ∨ m.memory.length = 0 then ((false, none) : Bool × Option (List ℚ))
    else (true, some (Knn.predictCore sqrtf m input))) = _
  rw [if_neg hcond]
  rw [Knn.predictCore_eq_specAmended sqrtf m input hout hsc]

/-- Witness for C5 amended: the aligned query against mOpp has score 1,
so predict returns the weighted blend, matching the spec term. -/
theorem c5_predict_topk_amended_witness :
    Knn.fossil_ai_jellyfish_predict (fun q => q) (some Knn.mOpp)
      (some Knn.inputPos) false =
      (true, some (Knn.specPredictAmended (fun q => q) Knn.mOpp Knn.inputPos)) :=
  c5_predict_topk_amended (fun q => q) Knn.mOpp Knn.inputPos
    (by with_unfolding_all decide) (by with_unfolding_all decide)
    (by with_unfolding_all decide) (by with_unfolding_all decide)

end FossilAI
